import Mathlib

/-!
Verification of the pusoy_dos2 rules engine core: the hand classifier
(src/game/hands.rs) and the round turn-state machine (src/game/round.rs).
Card primitives (Rank, Suit, PlayedCard) and the Player type live outside
the provided sources and are modelled from the spec where noted.
-/

/-- Modelled from the spec: the closed enumeration of the 13 ranks (spec §3).
The declaration order follows the fixed successor chain Three → Four → … →
Ace → Two that defines straights, which is also the order the repository's
sorting of played cards observes (e.g. the classifier sorts 5,3,6,4,7 into
3,4,5,6,7). -/
inductive Rank where
  | Three
  | Four
  | Five
  | Six
  | Seven
  | Eight
  | Nine
  | Ten
  | Jack
  | Queen
  | King
  | Ace
  | Two
deriving DecidableEq, Repr

/-- Modelled from the spec: the closed enumeration of the 4 suits (spec §3),
in the declaration order used throughout the repository's tests. -/
inductive Suit where
  | Clubs
  | Hearts
  | Diamonds
  | Spades
deriving DecidableEq, Repr

/-- Modelled from the spec: a played card is a rank and suit together with a
joker marker (spec §3: PlayedCard = (card, is_joker); deck identity does not
participate in matching or classification). -/
structure PlayedCard where
  rank : Rank
  suit : Suit
  joker : Bool
deriving DecidableEq, Repr

instance : Inhabited Rank := ⟨Rank.Three⟩

instance : Inhabited Suit := ⟨Suit.Clubs⟩

/-- Position of a rank in the declaration order (Three = 0 … Two = 12). -/
def Rank.idx : Rank → Nat
  | .Three => 0
  | .Four => 1
  | .Five => 2
  | .Six => 3
  | .Seven => 4
  | .Eight => 5
  | .Nine => 6
  | .Ten => 7
  | .Jack => 8
  | .Queen => 9
  | .King => 10
  | .Ace => 11
  | .Two => 12

/-- Position of a suit in the declaration order (Clubs = 0 … Spades = 3). -/
def Suit.idx : Suit → Nat
  | .Clubs => 0
  | .Hearts => 1
  | .Diamonds => 2
  | .Spades => 3

/-- PlayedCard::previous_rank (src/cards/cards.rs): the fixed, non-cyclic
successor chain used by the straight check. Three has no predecessor. -/
def PlayedCard.previousRank (c : PlayedCard) : Option Rank :=
  match c.rank with
  | .Three => none
  | .Four => some .Three
  | .Five => some .Four
  | .Six => some .Five
  | .Seven => some .Six
  | .Eight => some .Seven
  | .Nine => some .Eight
  | .Ten => some .Nine
  | .Jack => some .Ten
  | .Queen => some .Jack
  | .King => some .Queen
  | .Ace => some .King
  | .Two => some .Ace

/-- Modelled from the spec: the key of the derived lexicographic ordering
(rank, then suit, then joker flag) that Vec::sort applies to played cards in
Hand::sort_cards. The key is injective on PlayedCard. -/
def pcKey (c : PlayedCard) : Nat :=
  c.rank.idx * 8 + c.suit.idx * 2 + (if c.joker then 1 else 0)

/-- The sorting relation on played cards: compare by `pcKey`. -/
def pcLE (a b : PlayedCard) : Prop := pcKey a ≤ pcKey b

instance : DecidableRel pcLE := fun a b => Nat.decLe (pcKey a) (pcKey b)

instance : IsTotal PlayedCard pcLE := ⟨fun a b => Nat.le_total (pcKey a) (pcKey b)⟩

instance : IsTrans PlayedCard pcLE := ⟨fun _ _ _ => Nat.le_trans⟩

/-- Hand::sort_cards (src/game/hands.rs): sort the submitted cards ascending. -/
def sortCards (cards : List PlayedCard) : List PlayedCard :=
  List.insertionSort pcLE cards

/-- TrickType (src/game/hands.rs). -/
inductive TrickType where
  | Straight
  | Flush
  | FullHouse
  | FourOfAKind
  | StraightFlush
  | FiveOfAKind
deriving DecidableEq, Repr

/-- Trick (src/game/hands.rs): a trick type with its five sorted cards
(represented as the sorted list). -/
structure Trick where
  trick_type : TrickType
  cards : List PlayedCard
deriving DecidableEq, Repr

/-- Hand (src/game/hands.rs). -/
inductive Hand where
  | Pass
  | Single (c : PlayedCard)
  | Pair (a b : PlayedCard)
  | Prial (a b c : PlayedCard)
  | FiveCardTrick (t : Trick)
deriving DecidableEq, Repr

/-- One fold step of Hand::get_counts: bump the count of rank `r` in the
association list (the embedding of the HashMap<Rank, usize>). -/
def bumpCount : List (Rank × Nat) → Rank → List (Rank × Nat)
  | [], r => [(r, 1)]
  | (k, n) :: rest, r =>
    if k = r then (k, n + 1) :: rest else (k, n) :: bumpCount rest r

/-- Hand::get_counts (src/game/hands.rs): fold the cards into a rank → count
map, here an association list in first-occurrence order. -/
def getCounts (cards : List PlayedCard) : List (Rank × Nat) :=
  cards.foldl (fun acc c => bumpCount acc c.rank) []

/-- rank_count.values().last() of Hand::check_valid_fct: one value of the
count map (the map's iteration order is unspecified; see the
order-independence result for C3). -/
def lastValue (l : List (Rank × Nat)) : Option Nat :=
  l.getLast?.map Prod.snd

/-- The match arms `3 | 2 => FullHouse, 4 | 1 => FourOfAKind` of
Hand::check_valid_fct. -/
def fctTypeOfCount : Nat → Option TrickType
  | 1 => some .FourOfAKind
  | 2 => some .FullHouse
  | 3 => some .FullHouse
  | 4 => some .FourOfAKind
  | _ => none

/-- Hand::is_straight (src/game/hands.rs): every card after the first has a
predecessor rank in the fixed chain equal to the previous card's rank. -/
def isStraight (c : List PlayedCard) : Bool :=
  c.enum.all fun p =>
    decide (p.1 = 0) ||
      match p.2.previousRank with
      | none => false
      | some pr => decide ((c.get? (p.1 - 1)).map PlayedCard.rank = some pr)

/-- Hand::is_flush (src/game/hands.rs): all cards share the first card's suit. -/
def isFlush : List PlayedCard → Bool
  | [] => true
  | a :: rest => (a :: rest).all fun c => decide (c.suit = a.suit)

/-- Hand::check_valid_pair (src/game/hands.rs). -/
def Hand.checkValidPair (cards : List PlayedCard) : Option Hand :=
  if (getCounts cards).length = 1 then
    match cards.get? 0, cards.get? 1 with
    | some a, some b => some (.Pair a b)
    | _, _ => none
  else none

/-- Hand::check_valid_prial (src/game/hands.rs). -/
def Hand.checkValidPrial (cards : List PlayedCard) : Option Hand :=
  if (getCounts cards).length = 1 then
    match cards.get? 0, cards.get? 1, cards.get? 2 with
    | some a, some b, some c => some (.Prial a b c)
    | _, _, _ => none
  else none

/-- Hand::check_valid_fct (src/game/hands.rs): sort, count ranks, and
dispatch on the number of distinct ranks. -/
def Hand.checkValidFct (c : List PlayedCard) : Option Hand :=
  let cards := sortCards c
  let rankCount := getCounts cards
  match rankCount.length with
  | 1 => some (.FiveCardTrick ⟨.FiveOfAKind, cards⟩)
  | 2 =>
    match lastValue rankCount with
    | some v => (fctTypeOfCount v).map fun tt => Hand.FiveCardTrick ⟨tt, cards⟩
    | none => none
  | _ =>
    if isStraight cards then
      if isFlush cards then some (.FiveCardTrick ⟨.StraightFlush, cards⟩)
      else some (.FiveCardTrick ⟨.Straight, cards⟩)
    else if isFlush cards then some (.FiveCardTrick ⟨.Flush, cards⟩)
    else none

/-- Hand::build (src/game/hands.rs): classify by cardinality. -/
def Hand.build (cards : List PlayedCard) : Option Hand :=
  match cards.length with
  | 0 => some .Pass
  | 1 => (cards.get? 0).map .Single
  | 2 => checkValidPair cards
  | 3 => checkValidPrial cards
  | 5 => checkValidFct cards
  | _ => none

/-! ### Properties of the rank-count map -/

/-- Value stored for rank `r` in the association list (0 when absent). -/
def cntOf (l : List (Rank × Nat)) (r : Rank) : Nat :=
  ((l.find? fun p => decide (p.1 = r)).map Prod.snd).getD 0

theorem bumpCount_keys (acc : List (Rank × Nat)) (r : Rank) :
    (bumpCount acc r).map Prod.fst =
      if r ∈ acc.map Prod.fst then acc.map Prod.fst
      else acc.map Prod.fst ++ [r] := by
  induction acc with
  | nil => simp [bumpCount]
  | cons p rest ih =>
    obtain ⟨k, n⟩ := p
    by_cases h : k = r
    · simp [bumpCount, h]
    · have h2 : ¬ r = k := fun hrk => h hrk.symm
      by_cases hm : r ∈ rest.map Prod.fst
      · simp [bumpCount, h, ih, hm, h2]
      · simp [bumpCount, h, ih, hm, h2]

theorem cntOf_bumpCount (acc : List (Rank × Nat)) (q r : Rank) :
    cntOf (bumpCount acc q) r = cntOf acc r + if q = r then 1 else 0 := by
  induction acc with
  | nil =>
    by_cases h : q = r <;> simp [bumpCount, cntOf, List.find?, h]
  | cons p rest ih =>
    obtain ⟨k, n⟩ := p
    by_cases hk : k = q
    · subst hk
      by_cases hqr : k = r <;> simp [bumpCount, cntOf, List.find?, hqr]
    · have hqk : ¬ q = k := fun h => hk h.symm
      by_cases hkr : k = r
      · subst hkr
        simp [bumpCount, hk, cntOf, List.find?, hqk]
      · simpa [bumpCount, hk, cntOf, List.find?, hkr] using ih

theorem bumpCount_snd_pos (acc : List (Rank × Nat)) (r : Rank)
    (h : ∀ p ∈ acc, 1 ≤ p.2) : ∀ p ∈ bumpCount acc r, 1 ≤ p.2 := by
  induction acc with
  | nil => simp [bumpCount]
  | cons q rest ih =>
    obtain ⟨k, n⟩ := q
    intro p hp
    by_cases hk : k = r
    · simp [bumpCount, hk] at hp
      rcases hp with rfl | hp
      · simp
      · exact h p (by simp [hp])
    · simp [bumpCount, hk] at hp
      rcases hp with rfl | hp
      · exact h (k, n) (by simp)
      · exact ih (fun q hq => h q (by simp [hq])) p hp

theorem bumpCount_snd_sum (acc : List (Rank × Nat)) (r : Rank) :
    ((bumpCount acc r).map Prod.snd).sum = (acc.map Prod.snd).sum + 1 := by
  induction acc with
  | nil => simp [bumpCount]
  | cons q rest ih =>
    obtain ⟨k, n⟩ := q
    by_cases hk : k = r
    · simp [bumpCount, hk]
      omega
    · simp [bumpCount, hk, ih]
      omega

theorem getCountsAux_keys_mem (cs : List PlayedCard) :
    ∀ (acc : List (Rank × Nat)) (x : Rank),
      (x ∈ (cs.foldl (fun acc c => bumpCount acc c.rank) acc).map Prod.fst
        ↔ x ∈ acc.map Prod.fst ∨ x ∈ cs.map PlayedCard.rank) := by
  induction cs with
  | nil => simp
  | cons c rest ih =>
    intro acc x
    rw [List.foldl_cons, ih, bumpCount_keys]
    by_cases hm : c.rank ∈ acc.map Prod.fst
    · simp only [hm, if_true, List.map_cons, List.mem_cons]
      constructor
      · rintro (h | h)
        · exact Or.inl h
        · exact Or.inr (Or.inr h)
      · rintro (h | h | h)
        · exact Or.inl h
        · exact Or.inl (h ▸ hm)
        · exact Or.inr h
    · simp only [hm, if_false, List.map_cons, List.mem_cons, List.mem_append,
        List.mem_singleton]
      tauto

theorem getCountsAux_keys_toFinset (cs : List PlayedCard) :
    ((getCounts cs).map Prod.fst).toFinset = (cs.map PlayedCard.rank).toFinset := by
  ext x
  have := getCountsAux_keys_mem cs [] x
  simp only [getCounts, List.mem_toFinset]
  simpa using this

theorem getCountsAux_keys_nodup (cs : List PlayedCard) :
    ∀ acc : List (Rank × Nat), (acc.map Prod.fst).Nodup →
      ((cs.foldl (fun acc c => bumpCount acc c.rank) acc).map Prod.fst).Nodup := by
  induction cs with
  | nil => exact fun acc h => h
  | cons c rest ih =>
    intro acc hacc
    rw [List.foldl_cons]
    refine ih _ ?_
    rw [bumpCount_keys]
    by_cases hm : c.rank ∈ acc.map Prod.fst
    · simpa [hm] using hacc
    · simp only [hm, if_false]
      simp [List.nodup_append, hacc, hm]

theorem getCountsAux_cntOf (cs : List PlayedCard) :
    ∀ (acc : List (Rank × Nat)) (r : Rank),
      cntOf (cs.foldl (fun acc c => bumpCount acc c.rank) acc) r
        = cntOf acc r + cs.countP (fun c => decide (c.rank = r)) := by
  induction cs with
  | nil => simp
  | cons c rest ih =>
    intro acc r
    rw [List.foldl_cons, ih, cntOf_bumpCount]
    by_cases h : c.rank = r
    · simp [List.countP_cons, h]
      omega
    · simp [List.countP_cons, h]

theorem getCountsAux_snd_pos (cs : List PlayedCard) :
    ∀ acc : List (Rank × Nat), (∀ p ∈ acc, 1 ≤ p.2) →
      ∀ p ∈ cs.foldl (fun acc c => bumpCount acc c.rank) acc, 1 ≤ p.2 := by
  induction cs with
  | nil => exact fun acc h => h
  | cons c rest ih =>
    intro acc hacc
    rw [List.foldl_cons]
    exact ih _ (bumpCount_snd_pos acc c.rank hacc)

theorem getCountsAux_snd_sum (cs : List PlayedCard) :
    ∀ acc : List (Rank × Nat),
      (((cs.foldl (fun acc c => bumpCount acc c.rank) acc)).map Prod.snd).sum
        = (acc.map Prod.snd).sum + cs.length := by
  induction cs with
  | nil => simp
  | cons c rest ih =>
    intro acc
    rw [List.foldl_cons, ih, bumpCount_snd_sum]
    simp only [List.length_cons]
    omega

/-- The number of distinct rank values among the submitted cards. -/
def distinctRankCount (cs : List PlayedCard) : Nat :=
  (cs.map PlayedCard.rank).toFinset.card

theorem getCounts_keys_toFinset (cs : List PlayedCard) :
    ((getCounts cs).map Prod.fst).toFinset = (cs.map PlayedCard.rank).toFinset :=
  getCountsAux_keys_toFinset cs

theorem getCounts_keys_nodup (cs : List PlayedCard) :
    ((getCounts cs).map Prod.fst).Nodup :=
  getCountsAux_keys_nodup cs [] (by simp)

theorem getCounts_cntOf (cs : List PlayedCard) (r : Rank) :
    cntOf (getCounts cs) r = cs.countP (fun c => decide (c.rank = r)) := by
  have := getCountsAux_cntOf cs [] r
  simpa [getCounts, cntOf] using this

theorem getCounts_snd_pos (cs : List PlayedCard) :
    ∀ p ∈ getCounts cs, 1 ≤ p.2 :=
  getCountsAux_snd_pos cs [] (by simp)

theorem getCounts_snd_sum (cs : List PlayedCard) :
    ((getCounts cs).map Prod.snd).sum = cs.length := by
  have := getCountsAux_snd_sum cs []
  simpa [getCounts] using this

theorem getCounts_length (cs : List PlayedCard) :
    (getCounts cs).length = distinctRankCount cs := by
  have h1 : (getCounts cs).length = ((getCounts cs).map Prod.fst).length := by simp
  rw [h1, ← List.toFinset_card_of_nodup (getCounts_keys_nodup cs),
    getCounts_keys_toFinset]
  rfl

/-! ### C1: classification by cardinality -/

/-- C1: Hand::build classifies by cardinality: empty → Pass; one card →
Single of it; two cards → Pair iff equal ranks, else rejected; three cards →
Prial iff all equal ranks, else rejected; four cards → always rejected; six
or more cards → always rejected. -/
theorem hand_build_cardinality (cs : List PlayedCard) :
    (cs = [] → Hand.build cs = some Hand.Pass) ∧
    (∀ a, cs = [a] → Hand.build cs = some (Hand.Single a)) ∧
    (∀ a b, cs = [a, b] →
      (a.rank = b.rank → Hand.build cs = some (Hand.Pair a b)) ∧
      (a.rank ≠ b.rank → Hand.build cs = none)) ∧
    (∀ a b c, cs = [a, b, c] →
      (a.rank = b.rank ∧ b.rank = c.rank → Hand.build cs = some (Hand.Prial a b c)) ∧
      (¬(a.rank = b.rank ∧ b.rank = c.rank) → Hand.build cs = none)) ∧
    (cs.length = 4 → Hand.build cs = none) ∧
    (6 ≤ cs.length → Hand.build cs = none) := by
  refine ⟨?_, ?_, ?_, ?_, ?_, ?_⟩
  · rintro rfl
    rfl
  · rintro a rfl
    rfl
  · rintro a b rfl
    constructor
    · intro h
      simp [Hand.build, Hand.checkValidPair, getCounts, bumpCount, h]
    · intro h
      have h2 : ¬ a.rank = b.rank := h
      simp [Hand.build, Hand.checkValidPair, getCounts, bumpCount, h2]
  · rintro a b c rfl
    constructor
    · rintro ⟨h1, h2⟩
      simp [Hand.build, Hand.checkValidPrial, getCounts, bumpCount, h1, h2]
    · intro h
      by_cases h1 : a.rank = b.rank
      · have h2 : ¬ b.rank = c.rank := fun hc => h ⟨h1, hc⟩
        have h3 : ¬ a.rank = c.rank := fun hc => h2 (h1 ▸ hc)
        simp [Hand.build, Hand.checkValidPrial, getCounts, bumpCount, h1, h2, h3]
      · have h1s : ¬ b.rank = a.rank := fun hh => h1 hh.symm
        by_cases h2 : a.rank = c.rank
        · by_cases h3 : b.rank = c.rank
          · exact absurd (h2.trans h3.symm) h1
          · have h3s : ¬ c.rank = b.rank := fun hh => h3 hh.symm
            simp [Hand.build, Hand.checkValidPrial, getCounts, bumpCount,
              h1, h1s, h2, h3, h3s]
        · have h2s : ¬ c.rank = a.rank := fun hh => h2 hh.symm
          by_cases h3 : b.rank = c.rank
          · simp [Hand.build, Hand.checkValidPrial, getCounts, bumpCount,
              h1, h1s, h2, h2s, h3]
          · have h3s : ¬ c.rank = b.rank := fun hh => h3 hh.symm
            simp [Hand.build, Hand.checkValidPrial, getCounts, bumpCount,
              h1, h1s, h2, h2s, h3, h3s]
  · intro h
    simp only [Hand.build, h]
  · intro h
    obtain ⟨k, hk⟩ : ∃ k, cs.length = k + 6 := ⟨cs.length - 6, by omega⟩
    simp only [Hand.build, hk]

/-- Witness for C1 at a concrete input: a pair of threes classifies as a
Pair. -/
theorem hand_build_cardinality_witness :
    Hand.build [⟨Rank.Three, Suit.Clubs, false⟩, ⟨Rank.Three, Suit.Hearts, false⟩]
      = some (Hand.Pair ⟨Rank.Three, Suit.Clubs, false⟩ ⟨Rank.Three, Suit.Hearts, false⟩) :=
  ((hand_build_cardinality _).2.2.1 _ _ rfl).1 rfl

theorem sortCards_perm (cs : List PlayedCard) : List.Perm (sortCards cs) cs :=
  List.perm_insertionSort pcLE cs

/-- Modelled from the spec: the multiplicity of rank `r` in the submission. -/
def rankCount (cs : List PlayedCard) (r : Rank) : Nat :=
  cs.countP fun c => decide (c.rank = r)

theorem distinctRankCount_sortCards (cs : List PlayedCard) :
    distinctRankCount (sortCards cs) = distinctRankCount cs := by
  unfold distinctRankCount
  rw [List.toFinset_eq_of_perm _ _ ((sortCards_perm cs).map PlayedCard.rank)]

theorem rankCount_sortCards (cs : List PlayedCard) (r : Rank) :
    rankCount (sortCards cs) r = rankCount cs r :=
  (sortCards_perm cs).countP_eq _

theorem cntOf_of_mem (l : List (Rank × Nat)) (hnd : (l.map Prod.fst).Nodup)
    {r : Rank} {n : Nat} (hm : (r, n) ∈ l) : cntOf l r = n := by
  induction l with
  | nil => cases hm
  | cons p rest ih =>
    obtain ⟨k, m⟩ := p
    rcases List.mem_cons.mp hm with heq | hmem
    · cases heq
      simp [cntOf, List.find?]
    · have hnd2 : (∀ x, (k, x) ∉ rest) ∧ (rest.map Prod.fst).Nodup := by
        simpa using hnd
      have hk : ¬ k = r := by
        intro hkr
        subst hkr
        exact hnd2.1 n hmem
      have hstep : cntOf ((k, m) :: rest) r = cntOf rest r := by
        simp [cntOf, List.find?, hk]
      rw [hstep]
      refine ih ?_ hmem
      simpa using hnd2.2

theorem cntOf_eq_zero_of_not_mem (l : List (Rank × Nat)) {r : Rank}
    (hm : r ∉ l.map Prod.fst) : cntOf l r = 0 := by
  have : l.find? (fun p => decide (p.1 = r)) = none := by
    rw [List.find?_eq_none]
    intro x hx hdec
    exact hm (List.mem_map.mpr ⟨x, hx, by simpa using hdec⟩)
  simp [cntOf, this]

theorem rankCount_mem_pair (cs : List PlayedCard) (p q : Rank × Nat)
    (hpq : getCounts (sortCards cs) = [p, q]) (r : Rank)
    (hr : 1 ≤ rankCount cs r) :
    rankCount cs r = p.2 ∨ rankCount cs r = q.2 := by
  have hcnt : cntOf (getCounts (sortCards cs)) r = rankCount cs r := by
    rw [getCounts_cntOf]
    exact rankCount_sortCards cs r
  by_cases hm : r ∈ (getCounts (sortCards cs)).map Prod.fst
  · have hnd := getCounts_keys_nodup (sortCards cs)
    rw [hpq] at hm hnd
    simp only [List.map_cons, List.map_nil, List.mem_cons, List.mem_singleton,
      List.not_mem_nil, or_false] at hm
    rcases hm with hm | hm
    · left
      rw [← hcnt, hpq]
      subst hm
      exact cntOf_of_mem _ hnd (by simp)
    · right
      rw [← hcnt, hpq]
      subst hm
      exact cntOf_of_mem _ hnd (by simp)
  · exfalso
    have := cntOf_eq_zero_of_not_mem _ hm
    omega

/-- C3: five cards with exactly two distinct ranks always classify as a
five-card trick, FullHouse for group sizes 3 and 2, FourOfAKind for group
sizes 4 and 1, and the result does not depend on which count value of the
rank-count map the implementation happens to inspect. -/
theorem hand_build_two_distinct_ranks (cs : List PlayedCard)
    (h5 : cs.length = 5) (h2 : distinctRankCount cs = 2) :
    (∃ t, Hand.build cs = some (Hand.FiveCardTrick t) ∧
      ((∃ r s, r ≠ s ∧ rankCount cs r = 3 ∧ rankCount cs s = 2) →
        t.trick_type = TrickType.FullHouse) ∧
      ((∃ r s, r ≠ s ∧ rankCount cs r = 4 ∧ rankCount cs s = 1) →
        t.trick_type = TrickType.FourOfAKind)) ∧
    (∀ v w, v ∈ (getCounts (sortCards cs)).map Prod.snd →
      w ∈ (getCounts (sortCards cs)).map Prod.snd →
      fctTypeOfCount v = fctTypeOfCount w) := by
  have hlen2 : (getCounts (sortCards cs)).length = 2 := by
    rw [getCounts_length, distinctRankCount_sortCards]
    exact h2
  obtain ⟨p, q, hpq⟩ := List.length_eq_two.mp hlen2
  have hsum : p.2 + q.2 = 5 := by
    have hs := getCounts_snd_sum (sortCards cs)
    rw [hpq] at hs
    simp at hs
    rw [(sortCards_perm cs).length_eq, h5] at hs
    omega
  have hp1 : 1 ≤ p.2 := getCounts_snd_pos (sortCards cs) p (by rw [hpq]; simp)
  have hq1 : 1 ≤ q.2 := getCounts_snd_pos (sortCards cs) q (by rw [hpq]; simp)
  have hbuild : Hand.build cs = Hand.checkValidFct cs := by
    simp only [Hand.build, h5]
  have hfct : ∀ tt, fctTypeOfCount q.2 = some tt →
      Hand.build cs = some (Hand.FiveCardTrick ⟨tt, sortCards cs⟩) := by
    intro tt htt
    rw [hbuild]
    simp only [Hand.checkValidFct, hpq, List.length_cons, List.length_nil, lastValue,
      List.getLast?, Option.map_some]
    simp [htt]
  have hvals : (getCounts (sortCards cs)).map Prod.snd = [p.2, q.2] := by
    rw [hpq]
    rfl
  -- helper eliminating impossible group sizes
  have hcases : q.2 = 1 ∨ q.2 = 2 ∨ q.2 = 3 ∨ q.2 = 4 := by omega
  have key : ∀ m, (∃ r s, r ≠ s ∧ rankCount cs r = m ∧ rankCount cs s = 5 - m) →
      1 ≤ m → m ≤ 4 → (m = p.2 ∨ m = q.2) := by
    rintro m ⟨r, s, hrs, hr, hs⟩ hm1 hm4
    have := rankCount_mem_pair cs p q hpq r (by omega)
    omega
  rcases hcases with hq | hq | hq | hq
  all_goals (
    have hp : p.2 = 5 - q.2 := by omega
    constructor
    · refine ⟨⟨(fctTypeOfCount q.2).getD TrickType.Straight, sortCards cs⟩, ?_, ?_, ?_⟩
      · exact hfct _ (by rw [hq]; rfl)
      · rintro ⟨r, s, hrs, hr3, hs2⟩
        have h1 := rankCount_mem_pair cs p q hpq r (by omega)
        have h2' := rankCount_mem_pair cs p q hpq s (by omega)
        simp only [hq, hp] at h1 h2' ⊢
        first
          | rfl
          | omega
      · rintro ⟨r, s, hrs, hr4, hs1⟩
        have h1 := rankCount_mem_pair cs p q hpq r (by omega)
        have h2' := rankCount_mem_pair cs p q hpq s (by omega)
        simp only [hq, hp] at h1 h2' ⊢
        first
          | rfl
          | omega
    · intro v w hv hw
      rw [hvals] at hv hw
      simp at hv hw
      rcases hv with hv | hv <;> rcases hw with hw | hw <;>
        simp [hv, hw, hq, hp, fctTypeOfCount])

/-- Witness for C3 at a concrete input: three threes and two fours form a
FullHouse, and the classification is count-order independent there. -/
theorem hand_build_two_distinct_ranks_witness :
    ∃ t, Hand.build
        [⟨Rank.Three, Suit.Clubs, false⟩, ⟨Rank.Three, Suit.Hearts, false⟩,
         ⟨Rank.Three, Suit.Diamonds, false⟩, ⟨Rank.Four, Suit.Clubs, false⟩,
         ⟨Rank.Four, Suit.Hearts, false⟩]
      = some (Hand.FiveCardTrick t) ∧ t.trick_type = TrickType.FullHouse := by
  obtain ⟨⟨t, ht, hfh, _⟩, _⟩ :=
    hand_build_two_distinct_ranks
      [⟨Rank.Three, Suit.Clubs, false⟩, ⟨Rank.Three, Suit.Hearts, false⟩,
       ⟨Rank.Three, Suit.Diamonds, false⟩, ⟨Rank.Four, Suit.Clubs, false⟩,
       ⟨Rank.Four, Suit.Hearts, false⟩] (by decide) (by decide)
  exact ⟨t, ht, hfh ⟨Rank.Three, Rank.Four, by decide, by decide, by decide⟩⟩

theorem previousRank_idx (c : PlayedCard) (p : Rank)
    (h : c.previousRank = some p) : p.idx + 1 = c.rank.idx := by
  rcases c with ⟨r, s, j⟩
  cases r <;> simp only [PlayedCard.previousRank, Option.some.injEq,
    reduceCtorEq] at h <;> subst h <;> rfl

theorem Rank.idx_inj (a b : Rank) (h : a.idx = b.idx) : a = b := by
  cases a <;> cases b <;> first
    | rfl
    | exact absurd h (by decide)

theorem isStraight_adjacent (l : List PlayedCard) (h : isStraight l = true)
    (i : Nat) (hi : i + 1 < l.length) :
    (l.get ⟨i, by omega⟩).rank.idx + 1 = (l.get ⟨i + 1, hi⟩).rank.idx := by
  have hall := List.all_eq_true.mp h
  have hmem : (i + 1, l.get ⟨i + 1, hi⟩) ∈ l.enum := by
    rw [List.mk_mem_enum_iff_getElem?]
    simp [List.getElem?_eq_getElem hi]
  have hp := hall _ hmem
  simp only [decide_eq_true_eq, Bool.or_eq_true] at hp
  rcases hp with hp | hp
  · omega
  · revert hp
    rcases hpr : (l.get ⟨i + 1, hi⟩).previousRank with _ | pr
    · intro hp
      cases hp
    · intro hp
      simp only [decide_eq_true_eq] at hp
      have hget : l.get? (i + 1 - 1) = some (l.get ⟨i, by omega⟩) := by
        simp [List.get?_eq_get (show i < l.length by omega)]
      rw [hget] at hp
      simp only [Option.map_some', Option.some.injEq] at hp
      have hpi := previousRank_idx _ _ hpr
      rw [← hp] at hpi
      exact hpi

theorem isStraight_idx_lt (l : List PlayedCard) (h : isStraight l = true) :
    ∀ j, (hj : j < l.length) → ∀ i, (hij : i < j) →
      (l.get ⟨i, by omega⟩).rank.idx < (l.get ⟨j, hj⟩).rank.idx := by
  intro j
  induction j with
  | zero =>
    intro hj i hij
    omega
  | succ j ih =>
    intro hj i hij
    have hadj := isStraight_adjacent l h j hj
    rcases Nat.lt_succ_iff_lt_or_eq.mp hij with hlt | heq
    · have := ih (by omega) i hlt
      omega
    · subst heq
      omega

theorem isStraight_ranks_nodup (l : List PlayedCard) (h : isStraight l = true) :
    (l.map PlayedCard.rank).Nodup := by
  rw [List.Nodup, List.pairwise_map, List.pairwise_iff_getElem]
  intro i j hi hj hij
  have := isStraight_idx_lt l h j hj i hij
  intro heq
  have : (l.get ⟨i, by omega⟩).rank.idx = (l.get ⟨j, hj⟩).rank.idx := by
    simp only [List.get_eq_getElem]
    rw [heq]
  omega

/-- Spec-level flush condition: all submitted cards share one suit. -/
def allSameSuit (cs : List PlayedCard) : Prop :=
  ∀ a ∈ cs, ∀ b ∈ cs, a.suit = b.suit

instance (cs : List PlayedCard) : Decidable (allSameSuit cs) := by
  unfold allSameSuit
  infer_instance

theorem isFlush_iff_allSameSuit (cs : List PlayedCard) (hne : cs ≠ []) :
    isFlush (sortCards cs) = true ↔ allSameSuit cs := by
  have hperm := sortCards_perm cs
  rcases hsc : sortCards cs with _ | ⟨a, rest⟩
  · exfalso
    rw [hsc] at hperm
    have hlen := hperm.length_eq
    simp at hlen
    exact hne (List.length_eq_zero.mp hlen.symm)
  · rw [hsc] at hperm
    constructor
    · intro hf u hu v hv
      simp only [isFlush] at hf
      have hall := List.all_eq_true.mp hf
      have hu2 : u ∈ a :: rest := hperm.mem_iff.mpr hu
      have hv2 : v ∈ a :: rest := hperm.mem_iff.mpr hv
      have h1 := hall u hu2
      have h2 := hall v hv2
      simp only [decide_eq_true_eq] at h1 h2
      rw [h1, h2]
    · intro hall
      simp only [isFlush]
      rw [List.all_eq_true]
      intro c hc
      simp only [decide_eq_true_eq]
      exact hall c (hperm.mem_iff.mp hc) a (hperm.mem_iff.mp (by simp))

/-- C2 counterexample: the 5-card all-clubs submission 5,3,3,4,4 has three
distinct ranks (neither all equal nor exactly two), yet Hand::build does not
reject it: it classifies it as a Flush, exactly as the repository's own
flush test asserts. -/
theorem hand_build_flush_counterexample :
    ([⟨Rank.Five, Suit.Clubs, false⟩, ⟨Rank.Three, Suit.Clubs, false⟩,
      ⟨Rank.Three, Suit.Clubs, false⟩, ⟨Rank.Four, Suit.Clubs, false⟩,
      ⟨Rank.Four, Suit.Clubs, false⟩] : List PlayedCard).length = 5 ∧
    distinctRankCount
      [⟨Rank.Five, Suit.Clubs, false⟩, ⟨Rank.Three, Suit.Clubs, false⟩,
       ⟨Rank.Three, Suit.Clubs, false⟩, ⟨Rank.Four, Suit.Clubs, false⟩,
       ⟨Rank.Four, Suit.Clubs, false⟩] = 3 ∧
    Hand.build
      [⟨Rank.Five, Suit.Clubs, false⟩, ⟨Rank.Three, Suit.Clubs, false⟩,
       ⟨Rank.Three, Suit.Clubs, false⟩, ⟨Rank.Four, Suit.Clubs, false⟩,
       ⟨Rank.Four, Suit.Clubs, false⟩]
      = some (Hand.FiveCardTrick
        ⟨TrickType.Flush,
         [⟨Rank.Three, Suit.Clubs, false⟩, ⟨Rank.Three, Suit.Clubs, false⟩,
          ⟨Rank.Four, Suit.Clubs, false⟩, ⟨Rank.Four, Suit.Clubs, false⟩,
          ⟨Rank.Five, Suit.Clubs, false⟩]⟩) := by
  refine ⟨rfl, by decide, by decide⟩

/-- C2 (amended): for a 5-card submission whose ranks are neither all equal
nor exactly two distinct values, Hand::build classifies it as Straight or
StraightFlush only when the five ranks are all distinct (the fixed-chain
condition); it classifies it as Flush or StraightFlush exactly when all five
cards share one suit (repeated ranks allowed); it rejects with None exactly
when the sorted cards neither form the chain nor share one suit; and any
accepted result is one of these three trick shapes. -/
theorem hand_build_three_plus_distinct_ranks (cs : List PlayedCard)
    (h5 : cs.length = 5) (hd1 : distinctRankCount cs ≠ 1)
    (hd2 : distinctRankCount cs ≠ 2) :
    ((∃ t, Hand.build cs = some (Hand.FiveCardTrick t) ∧
        (t.trick_type = TrickType.Straight ∨ t.trick_type = TrickType.StraightFlush)) →
      (cs.map PlayedCard.rank).Nodup) ∧
    ((∃ t, Hand.build cs = some (Hand.FiveCardTrick t) ∧
        (t.trick_type = TrickType.Flush ∨ t.trick_type = TrickType.StraightFlush)) ↔
      allSameSuit cs) ∧
    (Hand.build cs = none ↔ (isStraight (sortCards cs) = false ∧ ¬ allSameSuit cs)) ∧
    (∀ h, Hand.build cs = some h → ∃ t, h = Hand.FiveCardTrick t ∧
      (t.trick_type = TrickType.Straight ∨ t.trick_type = TrickType.Flush ∨
        t.trick_type = TrickType.StraightFlush)) := by
  have hne : cs ≠ [] := by
    intro h
    rw [h] at h5
    simp at h5
  have hbuild : Hand.build cs = Hand.checkValidFct cs := by
    simp only [Hand.build, h5]
  have hlen : (getCounts (sortCards cs)).length = distinctRankCount cs := by
    rw [getCounts_length, distinctRankCount_sortCards]
  have hflu := isFlush_iff_allSameSuit cs hne
  have hnodup : isStraight (sortCards cs) = true → (cs.map PlayedCard.rank).Nodup := by
    intro hs
    have h1 := isStraight_ranks_nodup _ hs
    exact ((sortCards_perm cs).map PlayedCard.rank).nodup_iff.mp h1
  -- reduce the classifier to the default (straight/flush) branch
  have hk : ∃ n, (getCounts (sortCards cs)).length = n + 3 := by
    rcases hcc : (getCounts (sortCards cs)).length with _ | _ | _ | n
    · exfalso
      have hsum := getCounts_snd_sum (sortCards cs)
      have : getCounts (sortCards cs) = [] := List.length_eq_zero.mp hcc
      rw [this] at hsum
      simp at hsum
      rw [(sortCards_perm cs).length_eq, h5] at hsum
      omega
    · exact absurd (hlen ▸ hcc) hd1
    · exact absurd (hlen ▸ hcc) hd2
    · exact ⟨n, rfl⟩
  obtain ⟨n, hk⟩ := hk
  have hred : Hand.build cs =
      (if isStraight (sortCards cs) then
        if isFlush (sortCards cs) then
          some (Hand.FiveCardTrick ⟨TrickType.StraightFlush, sortCards cs⟩)
        else some (Hand.FiveCardTrick ⟨TrickType.Straight, sortCards cs⟩)
      else if isFlush (sortCards cs) then
        some (Hand.FiveCardTrick ⟨TrickType.Flush, sortCards cs⟩)
      else none) := by
    rw [hbuild]
    simp only [Hand.checkValidFct, hk]
  rcases hs : isStraight (sortCards cs) <;> rcases hf : isFlush (sortCards cs)
  · -- neither straight nor flush: rejected
    rw [hs, hf] at hred
    simp only [Bool.false_eq_true, if_false] at hred
    refine ⟨?_, ?_, ?_, ?_⟩
    · rintro ⟨t, ht, -⟩
      rw [hred] at ht
      cases ht
    · rw [← hflu, hf]
      constructor
      · rintro ⟨t, ht, -⟩
        rw [hred] at ht
        cases ht
      · intro hc
        cases hc
    · simp [hred, hs, ← hflu, hf]
    · intro h hh
      rw [hred] at hh
      cases hh
  · -- flush only
    rw [hs, hf] at hred
    simp only [Bool.false_eq_true, if_false, if_true] at hred
    refine ⟨?_, ?_, ?_, ?_⟩
    · rintro ⟨t, ht, htt⟩
      rw [hred] at ht
      injection ht with ht
      injection ht with ht
      subst ht
      simp at htt
    · rw [← hflu, hf]
      simp only [iff_true]
      exact ⟨_, hred, Or.inl rfl⟩
    · simp [hred]
      exact hflu.mp hf
    · intro h hh
      rw [hred] at hh
      injection hh with hh
      exact ⟨_, hh.symm, Or.inr (Or.inl rfl)⟩
  · -- straight only
    rw [hs, hf] at hred
    simp only [Bool.false_eq_true, if_false, if_true] at hred
    refine ⟨?_, ?_, ?_, ?_⟩
    · intro _
      exact hnodup hs
    · rw [← hflu, hf]
      simp only [Bool.false_eq_true, iff_false]
      rintro ⟨t, ht, htt⟩
      rw [hred] at ht
      injection ht with ht
      injection ht with ht
      subst ht
      simp at htt
    · simp [hred, hs]
    · intro h hh
      rw [hred] at hh
      injection hh with hh
      exact ⟨_, hh.symm, Or.inl rfl⟩
  · -- straight flush
    rw [hs, hf] at hred
    simp only [if_true] at hred
    refine ⟨?_, ?_, ?_, ?_⟩
    · intro _
      exact hnodup hs
    · rw [← hflu, hf]
      simp only [iff_true]
      exact ⟨_, hred, Or.inr rfl⟩
    · simp [hred, hs]
    · intro h hh
      rw [hred] at hh
      injection hh with hh
      exact ⟨_, hh.symm, Or.inr (Or.inr rfl)⟩

/-- Witness for the amended C2 at a concrete input: the all-clubs 5,3,3,4,4
submission (three distinct ranks, one suit) classifies as a Flush-shaped
trick. -/
theorem hand_build_three_plus_distinct_ranks_witness :
    ∃ t, Hand.build
        [⟨Rank.Five, Suit.Clubs, false⟩, ⟨Rank.Three, Suit.Clubs, false⟩,
         ⟨Rank.Three, Suit.Clubs, false⟩, ⟨Rank.Four, Suit.Clubs, false⟩,
         ⟨Rank.Four, Suit.Clubs, false⟩] = some (Hand.FiveCardTrick t) ∧
      (t.trick_type = TrickType.Flush ∨ t.trick_type = TrickType.StraightFlush) :=
  (hand_build_three_plus_distinct_ranks
    [⟨Rank.Five, Suit.Clubs, false⟩, ⟨Rank.Three, Suit.Clubs, false⟩,
     ⟨Rank.Three, Suit.Clubs, false⟩, ⟨Rank.Four, Suit.Clubs, false⟩,
     ⟨Rank.Four, Suit.Clubs, false⟩] (by decide) (by decide) (by decide)).2.1.mpr
    (by decide)

/-! ### The round state machine (src/game/round.rs) -/

/-- SubmitError (src/game/round.rs). -/
inductive SubmitError where
  | FirstRoundPass
  | FirstHandMustContainLowestCard
  | HandNotHighEnough
  | NotCurrentPlayer
  | InvalidHand
  | PlayerDoesntHaveCard
deriving DecidableEq, Repr

/-- Modelled from the spec: the flush-precedence tie-break mode of the
Ruleset (spec §3, §9: a named configuration toggle with at least two
enumerated behaviors; its exact semantics live in the injected comparator). -/
inductive FlushPrecedence where
  | Rank
  | Suit
deriving DecidableEq, Repr

/-- Ruleset (spec §3): per-round configuration, immutable for the round. -/
structure Ruleset where
  reversals_enabled : Bool
  flush_precedence : FlushPrecedence
deriving DecidableEq, Repr

/-- Modelled from the spec: a card held in a player's hand, identified by
rank and suit (spec §4.3: matching ignores deck identity and the reversal
flag; the repository's own test `deck_id_is_not_checked_when_move_played`
pins this down). -/
structure SimpleCard where
  rank : Rank
  suit : Suit
deriving DecidableEq, Repr

/-- Modelled from the spec: Player = (id, remaining hand) (spec §3, §4.3). -/
structure Player where
  id : String
  hand : List SimpleCard
deriving DecidableEq, Repr

/-- Modelled from the spec: Player::has_card — pure membership query on
rank and suit (spec §4.3). -/
def Player.hasCard (p : Player) (r : Rank) (s : Suit) : Bool :=
  p.hand.any fun c => decide (c.rank = r) && decide (c.suit = s)

/-- Modelled from the spec: remove the first held card matching the rank
and suit of a played card; none when no such card is held. -/
def removeFirst (hand : List SimpleCard) (c : PlayedCard) : Option (List SimpleCard) :=
  match hand with
  | [] => none
  | h :: t =>
    if h.rank = c.rank ∧ h.suit = c.suit then some t
    else (removeFirst t c).map (h :: ·)

/-- Modelled from the spec: the hand left after removing each played card
one-for-one; none as soon as a requested card is not held (spec §4.3). -/
def playMoveAux (hand : List SimpleCard) : List PlayedCard → Option (List SimpleCard)
  | [] => some hand
  | c :: cs =>
    match removeFirst hand c with
    | none => none
    | some h2 => playMoveAux h2 cs

/-- Modelled from the spec: Player::play_move — returns the reduced player,
or none (the PlayerDoesntHaveCard signal) when a card is not held. -/
def Player.playMove (p : Player) (cards : List PlayedCard) : Option Player :=
  (playMoveAux p.hand cards).map fun h => ⟨p.id, h⟩

/-- The injected hand comparator (spec §6): beats(reference, candidate,
flush_precedence, suit_order, rank_order). Its internals are outside this
core, so every result below is universally quantified over it. -/
def CompareHands : Type :=
  Hand → Hand → FlushPrecedence → List Suit → List Rank → Bool

/-- Round (src/game/round.rs). The fixed-size arrays [Suit; 4] and
[Rank; 13] are represented as lists. -/
structure Round where
  players : List Player
  next_player : Option String
  last_move : Option Hand
  last_player : Option String
  suit_order : List Suit
  rank_order : List Rank
  ruleset : Ruleset
deriving DecidableEq, Repr

/-- Round::get_player (src/game/round.rs): first player with the given id. -/
def getPlayer (players : List Player) (user_id : String) : Option Player :=
  players.find? fun p => decide (p.id = user_id)

/-- Round::get_players_still_in (src/game/round.rs): the players whose hand
is non-empty. -/
def getPlayersStillIn (players : List Player) : List Player :=
  players.filter fun p => !p.hand.isEmpty

/-- Round::get_starting_player (src/game/round.rs): the first player who
holds the lowest card, rank rank_order[0] of suit suit_order[0]. -/
def getStartingPlayer (r : Round) : Option String :=
  (r.players.find? fun p => p.hasCard r.rank_order.headI r.suit_order.headI).map
    Player.id

/-- Round::get_next_player (src/game/round.rs). -/
def getNextPlayer (r : Round) : Option String :=
  match r.next_player with
  | none =>
    if 1 < (getPlayersStillIn r.players).length then getStartingPlayer r
    else none
  | some x => some x

/-- Round::contains_lowest_card (src/game/round.rs). -/
def containsLowestCard (r : Round) (cards : List PlayedCard) : Bool :=
  cards.any fun c =>
    decide (c.rank = r.rank_order.headI) && decide (c.suit = r.suit_order.headI)

/-- Round::check_starting_move (src/game/round.rs). -/
def checkStartingMove (r : Round) (cards : List PlayedCard) : Option SubmitError :=
  if cards.isEmpty then some .FirstRoundPass
  else if !containsLowestCard r cards then some .FirstHandMustContainLowestCard
  else none

/-- Round::hand_beats_last_move (src/game/round.rs): defer to the injected
comparator against the unwrapped last move (only ever called with a last
move present). -/
def handBeatsLastMove (cmp : CompareHands) (r : Round) (hand : Hand) : Bool :=
  match r.last_move with
  | some lm => cmp lm hand r.ruleset.flush_precedence r.suit_order r.rank_order
  | none => false

/-- Round::get_updated_players (src/game/round.rs): replace the entries whose
id matches the updated player's. -/
def getUpdatedPlayers (players : List Player) (player : Player) : List Player :=
  players.map fun p => if p.id = player.id then player else p

/-- The index computation of Round::get_next_player_in_rotation: fold over
the enumerated players keeping (last matching index) + 1, starting from 0. -/
def rotIndex (players : List Player) (user_id : String) : Nat :=
  players.enum.foldl (fun acc p => if p.2.id = user_id then p.1 + 1 else acc) 0

/-- Round::get_next_player_in_rotation (src/game/round.rs): the seat after
the user's, wrapping from the last seat to the first; none models the panic
on an empty player list. -/
def getNextPlayerInRotation (players : List Player) (user_id : String) :
    Option String :=
  match players.getLast? with
  | none => none
  | some lastP =>
    if lastP.id = user_id then players.head?.map Player.id
    else (players.get? (rotIndex players user_id)).map Player.id

/-- The while loop of Round::get_last_move_and_new_player: skip players whose
hand is empty, clearing the table whenever the computed next player equals
the (already updated) last player. Fuel bounds the walk; none models the
panic/divergence of the loop, which cannot occur within players.length + 1
steps whenever the Rust loop terminates. -/
def skipEmpty (players : List Player) (nlpS : String) :
    Nat → String → Option Hand → Option (Option Hand × String)
  | 0, _, _ => none
  | fuel + 1, np, nlm =>
    match getPlayer players np with
    | none => none
    | some p =>
      if p.hand.isEmpty then
        match getNextPlayerInRotation players np with
        | none => none
        | some np2 =>
          skipEmpty players nlpS fuel np2
            (if np2 = nlpS then some Hand.Pass else nlm)
      else some (nlm, np)

/-- Round::get_last_move_and_new_player (src/game/round.rs). -/
def getLastMoveAndNewPlayer (r : Round) (user_id : String) (hand : Option Hand)
    (new_last_player : Option String) : Option (Option Hand × String) :=
  let nlm0 := if hand = some Hand.Pass then r.last_move else hand
  match getNextPlayerInRotation r.players user_id with
  | none => none
  | some np0 =>
    let nlpS := new_last_player.getD "invalid_player"
    skipEmpty r.players nlpS (r.players.length + 1) np0
      (if np0 = nlpS then some Hand.Pass else nlm0)

/-- Tests whether a hand is a FourOfAKind five-card trick. -/
def isFourOfAKindHand : Hand → Bool
  | .FiveCardTrick t => decide (t.trick_type = TrickType.FourOfAKind)
  | _ => false

/-- Round::get_updated_suit_and_rank_order (src/game/round.rs): reverse both
orders exactly when reversals are enabled and the hand is a FourOfAKind
trick. -/
def getUpdatedSuitAndRankOrder (r : Round) (hand : Option Hand) :
    List Suit × List Rank :=
  if r.ruleset.reversals_enabled then
    if isFourOfAKindHand (hand.getD Hand.Pass) then
      (r.suit_order.reverse, r.rank_order.reverse)
    else (r.suit_order, r.rank_order)
  else (r.suit_order, r.rank_order)

/-- The two phase guards of Round::submit_move: the starting-move checks in
the pre-game state, and the must-beat-last-move check in progress. -/
def phaseCheck (cmp : CompareHands) (r : Round) (hand : Hand)
    (cards : List PlayedCard) : Option SubmitError :=
  if r.last_move = none then checkStartingMove r cards
  else if r.last_move ≠ some Hand.Pass ∧ hand ≠ Hand.Pass ∧
      handBeatsLastMove cmp r hand = false then
    some .HandNotHighEnough
  else none

/-- Round::submit_move (src/game/round.rs). The result is none exactly when
the Rust code faults (a .expect/.unwrap panic or a divergent rotation loop),
some (.error e) for a SubmitError, and some (.ok r2) for an accepted move. -/
def submitMove (cmp : CompareHands) (r : Round) (user_id : String)
    (cards : List PlayedCard) : Option (Except SubmitError Round) :=
  match getNextPlayer r with
  | none => none
  | some np =>
    if user_id = np then
      match Hand.build cards with
      | none => some (.error .InvalidHand)
      | some hand =>
        match phaseCheck cmp r hand cards with
        | some e => some (.error e)
        | none =>
          match getPlayer r.players user_id with
          | none => none
          | some player =>
            match player.playMove cards with
            | none => some (.error .PlayerDoesntHaveCard)
            | some player2 =>
              let players := getUpdatedPlayers r.players player2
              let newLastPlayer :=
                if hand = Hand.Pass then r.last_player else some user_id
              match getLastMoveAndNewPlayer r user_id (some hand) newLastPlayer with
              | none => none
              | some (newLastMove, nextP) =>
                let outNext :=
                  if 1 < (getPlayersStillIn players).length then some nextP
                  else none
                let orders := getUpdatedSuitAndRankOrder r (some hand)
                some (.ok
                  { players := players
                    next_player := outNext
                    last_move := newLastMove
                    last_player := newLastPlayer
                    suit_order := orders.1
                    rank_order := orders.2
                    ruleset := r.ruleset })
    else some (.error .NotCurrentPlayer)

/-! ### Reduction lemmas for submit_move -/

theorem submitMove_of_phase_some (cmp : CompareHands) (r : Round) (u : String)
    (cs : List PlayedCard) (hand : Hand) (e : SubmitError)
    (hnp : getNextPlayer r = some u) (hb : Hand.build cs = some hand)
    (hph : phaseCheck cmp r hand cs = some e) :
    submitMove cmp r u cs = some (.error e) := by
  simp [submitMove, hnp, hb, hph]

theorem submitMove_of_phase_none (cmp : CompareHands) (r : Round) (u : String)
    (cs : List PlayedCard) (hand : Hand)
    (hnp : getNextPlayer r = some u) (hb : Hand.build cs = some hand)
    (hph : phaseCheck cmp r hand cs = none) :
    submitMove cmp r u cs = none ∨
    submitMove cmp r u cs = some (.error SubmitError.PlayerDoesntHaveCard) ∨
    ∃ r2, submitMove cmp r u cs = some (.ok r2) := by
  simp only [submitMove, hnp, hb, hph]
  rcases hgp : getPlayer r.players u with _ | player
  · left
    simp [hgp]
  · rcases hpm : player.playMove cs with _ | player2
    · right
      left
      simp [hgp, hpm]
    · rcases hgl : getLastMoveAndNewPlayer r u (some hand)
        (if hand = Hand.Pass then r.last_player else some u) with _ | ⟨nlm, nextP⟩
      · left
        simp [hgp, hpm, hgl]
      · right
        right
        simp only [hgp, hpm, hgl]
        exact ⟨_, rfl⟩

/-! ### Concrete fixtures used by witnesses -/

/-- A trivial concrete comparator (never used on the paths the witnesses
exercise, or irrelevant to the property witnessed). -/
def cmpStub : CompareHands := fun _ _ _ _ _ => false

/-- The default suit precedence of the repository's tests. -/
def defaultSuitOrder : List Suit := [.Clubs, .Hearts, .Diamonds, .Spades]

/-- The default rank precedence of the repository's tests. -/
def defaultRankOrder : List Rank :=
  [.Three, .Four, .Five, .Six, .Seven, .Eight, .Nine, .Ten, .Jack, .Queen,
   .King, .Ace, .Two]

/-- A concrete terminal round: one player left with cards, no explicit next
player. -/
def roundTerminal : Round :=
  ⟨[⟨"a", [⟨Rank.Three, Suit.Clubs⟩]⟩, ⟨"b", []⟩], none, none, none,
    defaultSuitOrder, defaultRankOrder, ⟨true, .Rank⟩⟩

/-- A concrete fresh (pre-game) round with player a to move. -/
def roundFresh : Round :=
  ⟨[⟨"a", [⟨Rank.Three, Suit.Clubs⟩, ⟨Rank.Four, Suit.Clubs⟩,
      ⟨Rank.Five, Suit.Clubs⟩, ⟨Rank.Six, Suit.Clubs⟩]⟩,
    ⟨"b", [⟨Rank.Four, Suit.Hearts⟩]⟩],
    some "a", none, none, defaultSuitOrder, defaultRankOrder, ⟨true, .Rank⟩⟩

/-- A concrete in-progress round with a single three of clubs on the table. -/
def roundInProgress : Round :=
  ⟨[⟨"a", [⟨Rank.Three, Suit.Clubs⟩, ⟨Rank.Six, Suit.Clubs⟩]⟩,
    ⟨"b", [⟨Rank.Four, Suit.Hearts⟩]⟩],
    some "a", some (Hand.Single ⟨Rank.Three, Suit.Clubs, false⟩), none,
    defaultSuitOrder, defaultRankOrder, ⟨true, .Rank⟩⟩

/-! ### C10: submitting with no next player faults -/

/-- C10: on a round whose get_next_player() is None, submit_move panics
(modelled as the none result) for every user id and every card list; it
never produces a SubmitError or a new Round. -/
theorem submit_move_no_next_player_panics (cmp : CompareHands) (r : Round)
    (h : getNextPlayer r = none) :
    ∀ u cs, submitMove cmp r u cs = none := by
  intro u cs
  simp [submitMove, h]

/-- Witness for C10: a round with a single remaining player and no explicit
next player faults on any submission. -/
theorem submit_move_no_next_player_panics_witness :
    submitMove cmpStub roundTerminal "a" [] = none :=
  submit_move_no_next_player_panics cmpStub roundTerminal rfl "a" []

/-! ### C4: the pre-game starting checks -/

/-- C4 counterexample: in the pre-game state, a non-empty submission that
lacks the lowest card but is not a valid hand (here four and five of clubs,
a mismatched pair) is rejected with InvalidHand, not with
FirstHandMustContainLowestCard as the claim requires. -/
theorem starting_move_invalid_hand_counterexample :
    (submitMove cmpStub roundFresh "a"
        [⟨Rank.Four, Suit.Clubs, false⟩, ⟨Rank.Five, Suit.Clubs, false⟩]
      = some (.error SubmitError.InvalidHand)) ∧
    ([⟨Rank.Four, Suit.Clubs, false⟩, ⟨Rank.Five, Suit.Clubs, false⟩] ≠
      ([] : List PlayedCard)) ∧
    containsLowestCard roundFresh
      [⟨Rank.Four, Suit.Clubs, false⟩, ⟨Rank.Five, Suit.Clubs, false⟩] = false :=
  ⟨rfl, by decide, rfl⟩

/-- C4 (amended): in the pre-game state, for the current next player: the
empty submission is rejected with FirstRoundPass; a non-empty submission
that classifies to a valid hand and lacks the lowest card (rank
rank_order[0], suit suit_order[0]) is rejected with
FirstHandMustContainLowestCard; and a valid hand containing the lowest card
is never rejected by either of these two checks. -/
theorem submit_move_starting_checks (cmp : CompareHands) (r : Round)
    (u : String) (h0 : r.last_move = none) (hnp : getNextPlayer r = some u) :
    (submitMove cmp r u [] = some (.error SubmitError.FirstRoundPass)) ∧
    (∀ cs hand, cs ≠ [] → Hand.build cs = some hand →
      containsLowestCard r cs = false →
      submitMove cmp r u cs = some (.error SubmitError.FirstHandMustContainLowestCard)) ∧
    (∀ cs hand, Hand.build cs = some hand → containsLowestCard r cs = true →
      ∀ e, submitMove cmp r u cs = some (.error e) →
        e ≠ SubmitError.FirstRoundPass ∧
        e ≠ SubmitError.FirstHandMustContainLowestCard) := by
  refine ⟨?_, ?_, ?_⟩
  · have hph : phaseCheck cmp r Hand.Pass [] = some SubmitError.FirstRoundPass := by
      simp [phaseCheck, h0, checkStartingMove]
    exact submitMove_of_phase_some cmp r u [] Hand.Pass _ hnp rfl hph
  · intro cs hand hne hb hlow
    have hph : phaseCheck cmp r hand cs =
        some SubmitError.FirstHandMustContainLowestCard := by
      simp [phaseCheck, h0, checkStartingMove, hne, hlow]
    exact submitMove_of_phase_some cmp r u cs hand _ hnp hb hph
  · intro cs hand hb hlow e hres
    have hne : cs ≠ [] := by
      intro h
      rw [h] at hlow
      simp [containsLowestCard] at hlow
    have hph : phaseCheck cmp r hand cs = none := by
      simp [phaseCheck, h0, checkStartingMove, hne, hlow]
    rcases submitMove_of_phase_none cmp r u cs hand hnp hb hph with h1 | h1 | ⟨r2, h1⟩ <;>
      rw [h1] at hres
    · cases hres
    · cases hres with
      | refl => exact ⟨by decide, by decide⟩
    · cases hres

/-- Witness for the amended C4 at a concrete pre-game round: an empty
submission is rejected as FirstRoundPass and a six of clubs (valid Single
lacking the three of clubs) as FirstHandMustContainLowestCard. -/
theorem submit_move_starting_checks_witness :
    (submitMove cmpStub roundFresh "a" []
      = some (.error SubmitError.FirstRoundPass)) ∧
    (submitMove cmpStub roundFresh "a" [⟨Rank.Six, Suit.Clubs, false⟩]
      = some (.error SubmitError.FirstHandMustContainLowestCard)) :=
  ⟨(submit_move_starting_checks cmpStub roundFresh "a" rfl rfl).1,
   (submit_move_starting_checks cmpStub roundFresh "a" rfl rfl).2.1
     [⟨Rank.Six, Suit.Clubs, false⟩] (Hand.Single ⟨Rank.Six, Suit.Clubs, false⟩)
     (by decide) rfl rfl⟩

/-! ### C5: the must-beat-last-move check -/

/-- C5: with a last move h on the table, submit_move (by the current player,
with a validly classified hand) returns HandNotHighEnough exactly when h is
not a Pass, the new hand is not a Pass, and the injected comparator does not
judge the new hand to beat h under the round's flush-precedence mode,
suit_order and rank_order; if either hand is a Pass the comparator is not
consulted and HandNotHighEnough is never returned. -/
theorem submit_move_hand_not_high_enough (cmp : CompareHands) (r : Round)
    (u : String) (cs : List PlayedCard) (hl hand : Hand)
    (hlm : r.last_move = some hl) (hnp : getNextPlayer r = some u)
    (hb : Hand.build cs = some hand) :
    (submitMove cmp r u cs = some (.error SubmitError.HandNotHighEnough)) ↔
      (hl ≠ Hand.Pass ∧ hand ≠ Hand.Pass ∧
        cmp hl hand r.ruleset.flush_precedence r.suit_order r.rank_order = false) := by
  have hphr : phaseCheck cmp r hand cs =
      (if hl ≠ Hand.Pass ∧ hand ≠ Hand.Pass ∧
          cmp hl hand r.ruleset.flush_precedence r.suit_order r.rank_order = false
        then some SubmitError.HandNotHighEnough else none) := by
    simp only [phaseCheck, hlm, handBeatsLastMove]
    simp
  constructor
  · intro hres
    by_cases hc : hl ≠ Hand.Pass ∧ hand ≠ Hand.Pass ∧
        cmp hl hand r.ruleset.flush_precedence r.suit_order r.rank_order = false
    · exact hc
    · exfalso
      have hph : phaseCheck cmp r hand cs = none := by
        rw [hphr, if_neg hc]
      rcases submitMove_of_phase_none cmp r u cs hand hnp hb hph with h1 | h1 | ⟨r2, h1⟩ <;>
        rw [h1] at hres <;> cases hres
  · intro hc
    have hph : phaseCheck cmp r hand cs = some SubmitError.HandNotHighEnough := by
      rw [hphr, if_pos hc]
    exact submitMove_of_phase_some cmp r u cs hand _ hnp hb hph

/-- Witness for C5: with a single three of clubs on the table and a
comparator that rejects everything, resubmitting a single is
HandNotHighEnough. -/
theorem submit_move_hand_not_high_enough_witness :
    submitMove cmpStub roundInProgress "a" [⟨Rank.Three, Suit.Clubs, false⟩]
      = some (.error SubmitError.HandNotHighEnough) :=
  (submit_move_hand_not_high_enough cmpStub roundInProgress "a"
    [⟨Rank.Three, Suit.Clubs, false⟩]
    (Hand.Single ⟨Rank.Three, Suit.Clubs, false⟩)
    (Hand.Single ⟨Rank.Three, Suit.Clubs, false⟩) rfl rfl rfl).mpr
    ⟨by decide, by decide, rfl⟩

/-! ### Inversion of an accepted submit_move -/

theorem submitMove_ok_elim {cmp : CompareHands} {r : Round} {u : String}
    {cs : List PlayedCard} {r2 : Round}
    (h : submitMove cmp r u cs = some (.ok r2)) :
    ∃ hand player player2 nlm nextP,
      getNextPlayer r = some u ∧
      Hand.build cs = some hand ∧
      phaseCheck cmp r hand cs = none ∧
      getPlayer r.players u = some player ∧
      player.playMove cs = some player2 ∧
      getLastMoveAndNewPlayer r u (some hand)
        (if hand = Hand.Pass then r.last_player else some u) = some (nlm, nextP) ∧
      r2.players = getUpdatedPlayers r.players player2 ∧
      r2.next_player =
        (if 1 < (getPlayersStillIn (getUpdatedPlayers r.players player2)).length
          then some nextP else none) ∧
      r2.last_move = nlm ∧
      r2.last_player = (if hand = Hand.Pass then r.last_player else some u) ∧
      r2.suit_order = (getUpdatedSuitAndRankOrder r (some hand)).1 ∧
      r2.rank_order = (getUpdatedSuitAndRankOrder r (some hand)).2 ∧
      r2.ruleset = r.ruleset := by
  unfold submitMove at h
  rcases hnp : getNextPlayer r with _ | np
  · simp only [hnp] at h
    cases h
  · simp only [hnp] at h
    by_cases hu : u = np
    · subst hu
      rw [if_pos rfl] at h
      rcases hb : Hand.build cs with _ | hand
      · simp only [hb] at h
        simp at h
      · simp only [hb] at h
        rcases hph : phaseCheck cmp r hand cs with _ | e
        · simp only [hph] at h
          rcases hgp : getPlayer r.players u with _ | player
          · simp only [hgp] at h
            cases h
          · simp only [hgp] at h
            rcases hpm : player.playMove cs with _ | player2
            · simp only [hpm] at h
              simp at h
            · simp only [hpm] at h
              rcases hgl : getLastMoveAndNewPlayer r u (some hand)
                  (if hand = Hand.Pass then r.last_player else some u)
                with _ | ⟨nlm, nextP⟩
              · simp only [hgl] at h
                cases h
              · simp only [hgl] at h
                simp only [Option.some.injEq, Except.ok.injEq] at h
                subst h
                exact ⟨hand, player, player2, nlm, nextP, rfl, rfl, hph, rfl,
                  hpm, hgl, rfl, rfl, rfl, rfl, rfl, rfl, rfl⟩
        · simp only [hph] at h
          simp at h
    · rw [if_neg hu] at h
      cases h

/-! ### C8: terminal detection -/

/-- C8: after any accepted submit_move, the returned round's next_player is
None exactly when at most one player still holds cards in the updated player
list, and otherwise it is Some player id. -/
theorem submit_move_terminal_next_player (cmp : CompareHands) (r : Round)
    (u : String) (cs : List PlayedCard) (r2 : Round)
    (hacc : submitMove cmp r u cs = some (.ok r2)) :
    (r2.next_player = none ↔
      r2.players.countP (fun p => !p.hand.isEmpty) ≤ 1) ∧
    (1 < r2.players.countP (fun p => !p.hand.isEmpty) →
      ∃ pid, r2.next_player = some pid) := by
  obtain ⟨hand, player, player2, nlm, nextP, hnp, hb, hph, hgp, hpm, hgl,
    hpl, hnxt, hlm, hlp, hso, hro, hrs⟩ := submitMove_ok_elim hacc
  have hstill : (getPlayersStillIn (getUpdatedPlayers r.players player2)).length
      = r2.players.countP (fun p => !p.hand.isEmpty) := by
    rw [hpl, getPlayersStillIn, List.countP_eq_length_filter]
  constructor
  · rw [hnxt, ← hstill]
    by_cases hc : 1 < (getPlayersStillIn (getUpdatedPlayers r.players player2)).length
    · simp only [hc, if_true]
      constructor
      · intro h
        cases h
      · intro h
        omega
    · simp only [hc, if_false]
      constructor
      · intro _
        omega
      · intro _
        trivial
  · intro h1
    rw [← hstill] at h1
    rw [hnxt]
    exact ⟨nextP, by simp [h1]⟩

/-- Witness for C8: player a opens a fresh two-player round with the three
of clubs; two players still hold cards, so next_player is some id. -/
theorem submit_move_terminal_next_player_witness :
    ∃ pid,
      (Round.mk [⟨"a", [⟨Rank.Four, Suit.Clubs⟩, ⟨Rank.Five, Suit.Clubs⟩,
          ⟨Rank.Six, Suit.Clubs⟩]⟩, ⟨"b", [⟨Rank.Four, Suit.Hearts⟩]⟩]
        (some "b") (some (Hand.Single ⟨Rank.Three, Suit.Clubs, false⟩))
        (some "a") defaultSuitOrder defaultRankOrder ⟨true, .Rank⟩).next_player
        = some pid :=
  (submit_move_terminal_next_player cmpStub roundFresh "a"
    [⟨Rank.Three, Suit.Clubs, false⟩] _ rfl).2 (by decide)

/-! ### C7: order reversal on FourOfAKind -/

/-- C7: an accepted submit_move reverses both orders element-wise exactly
when reversals are enabled and the submitted hand classifies as a
FourOfAKind five-card trick; any other hand shape, and any hand when
reversals are disabled, leaves both orders unchanged. -/
theorem submit_move_reversal_orders (cmp : CompareHands) (r : Round)
    (u : String) (cs : List PlayedCard) (r2 : Round) (hand : Hand)
    (hacc : submitMove cmp r u cs = some (.ok r2))
    (hb : Hand.build cs = some hand) :
    ((r.ruleset.reversals_enabled = true ∧ isFourOfAKindHand hand = true) →
      r2.suit_order = r.suit_order.reverse ∧
      r2.rank_order = r.rank_order.reverse ∧
      (∀ i, (hi : i < r.suit_order.length) →
        r2.suit_order[i]? = r.suit_order[r.suit_order.length - 1 - i]?) ∧
      (∀ i, (hi : i < r.rank_order.length) →
        r2.rank_order[i]? = r.rank_order[r.rank_order.length - 1 - i]?)) ∧
    ((r.ruleset.reversals_enabled = false ∨ isFourOfAKindHand hand = false) →
      r2.suit_order = r.suit_order ∧ r2.rank_order = r.rank_order) := by
  obtain ⟨hand2, player, player2, nlm, nextP, hnp, hb2, hph, hgp, hpm, hgl,
    hpl, hnxt, hlm, hlp, hso, hro, hrs⟩ := submitMove_ok_elim hacc
  have hh : hand2 = hand := by
    rw [hb] at hb2
    exact (Option.some.inj hb2).symm
  rw [hh] at hso hro
  constructor
  · rintro ⟨he, hf⟩
    have hupd : getUpdatedSuitAndRankOrder r (some hand)
        = (r.suit_order.reverse, r.rank_order.reverse) := by
      simp [getUpdatedSuitAndRankOrder, he, hf]
    rw [hso, hro, hupd]
    refine ⟨rfl, rfl, ?_, ?_⟩
    · intro i hi
      exact List.getElem?_reverse hi
    · intro i hi
      exact List.getElem?_reverse hi
  · intro hor
    have hupd : getUpdatedSuitAndRankOrder r (some hand)
        = (r.suit_order, r.rank_order) := by
      rcases hor with he | hf
      · simp [getUpdatedSuitAndRankOrder, he]
      · rcases hrev : r.ruleset.reversals_enabled <;>
          simp [getUpdatedSuitAndRankOrder, hrev, hf]
    rw [hso, hro, hupd]
    exact ⟨rfl, rfl⟩

/-- The round produced when player a opens roundFresh with the three of
clubs. -/
def roundAfterSingle : Round :=
  ⟨[⟨"a", [⟨Rank.Four, Suit.Clubs⟩, ⟨Rank.Five, Suit.Clubs⟩,
      ⟨Rank.Six, Suit.Clubs⟩]⟩, ⟨"b", [⟨Rank.Four, Suit.Hearts⟩]⟩],
    some "b", some (Hand.Single ⟨Rank.Three, Suit.Clubs, false⟩), some "a",
    defaultSuitOrder, defaultRankOrder, ⟨true, .Rank⟩⟩

/-- Witness for C7: a Single (not a FourOfAKind) accepted under
reversals-enabled rules leaves the suit order of a concrete round unchanged. -/
theorem submit_move_reversal_orders_witness :
    submitMove cmpStub roundFresh "a" [⟨Rank.Three, Suit.Clubs, false⟩]
        = some (.ok roundAfterSingle) ∧
    roundAfterSingle.suit_order = roundFresh.suit_order :=
  ⟨rfl, ((submit_move_reversal_orders cmpStub roundFresh "a"
      [⟨Rank.Three, Suit.Clubs, false⟩] roundAfterSingle
      (Hand.Single ⟨Rank.Three, Suit.Clubs, false⟩) rfl rfl).2
      (Or.inr rfl)).1⟩

/-! ### The rotation trace: the sequence of players the skip loop visits -/

/-- The players computed by the skip loop of get_last_move_and_new_player,
starting from the immediate next player: each empty-handed player visited,
ending with the first player found holding cards. -/
def rotTrace (players : List Player) : Nat → String → Option (List String)
  | 0, _ => none
  | fuel + 1, np =>
    match getPlayer players np with
    | none => none
    | some p =>
      if p.hand.isEmpty then
        match getNextPlayerInRotation players np with
        | none => none
        | some np2 => (rotTrace players fuel np2).map (fun l => np :: l)
      else some [np]

theorem rotTrace_head (players : List Player) :
    ∀ fuel np tr, rotTrace players fuel np = some tr → ∃ t, tr = np :: t := by
  intro fuel
  induction fuel with
  | zero =>
    intro np tr h
    cases h
  | succ fuel ih =>
    intro np tr h
    simp only [rotTrace] at h
    rcases hgp : getPlayer players np with _ | p
    · rw [hgp] at h
      cases h
    · simp only [hgp] at h
      by_cases hemp : p.hand.isEmpty
      · rw [if_pos hemp] at h
        rcases hrot : getNextPlayerInRotation players np with _ | np2
        · rw [hrot] at h
          cases h
        · simp only [hrot] at h
          rcases hl : rotTrace players fuel np2 with _ | l
          · rw [hl] at h
            cases h
          · rw [hl] at h
            simp only [Option.map_some', Option.some.injEq] at h
            exact ⟨l, h.symm⟩
      · rw [if_neg hemp] at h
        simp only [Option.some.injEq] at h
        exact ⟨[], h.symm⟩

theorem skipEmpty_of_rotTrace (players : List Player) (nlpS : String) :
    ∀ fuel np tr nlm, rotTrace players fuel np = some tr →
      ∃ last, tr.getLast? = some last ∧
        skipEmpty players nlpS fuel np nlm =
          some ((if nlpS ∈ tr.drop 1 then some Hand.Pass else nlm), last) := by
  intro fuel
  induction fuel with
  | zero =>
    intro np tr nlm h
    cases h
  | succ fuel ih =>
    intro np tr nlm h
    simp only [rotTrace] at h
    rcases hgp : getPlayer players np with _ | p
    · rw [hgp] at h
      cases h
    · simp only [hgp] at h
      by_cases hemp : p.hand.isEmpty
      · rw [if_pos hemp] at h
        rcases hrot : getNextPlayerInRotation players np with _ | np2
        · rw [hrot] at h
          cases h
        · simp only [hrot] at h
          rcases hl : rotTrace players fuel np2 with _ | l
          · rw [hl] at h
            cases h
          · rw [hl] at h
            simp only [Option.map_some', Option.some.injEq] at h
            subst h
            obtain ⟨t, ht⟩ := rotTrace_head players fuel np2 l hl
            obtain ⟨last, hlast, hskip⟩ :=
              ih np2 l (if np2 = nlpS then some Hand.Pass else nlm) hl
            refine ⟨last, ?_, ?_⟩
            · rw [ht] at hlast ⊢
              exact hlast
            · have hstep : skipEmpty players nlpS (fuel + 1) np nlm =
                  skipEmpty players nlpS fuel np2
                    (if np2 = nlpS then some Hand.Pass else nlm) := by
                simp only [skipEmpty, hgp, hemp, if_true, hrot]
              rw [hstep, hskip]
              have harg :
                  (if nlpS ∈ l.drop 1 then some Hand.Pass
                    else if np2 = nlpS then some Hand.Pass else nlm) =
                  (if nlpS ∈ (np :: l).drop 1 then some Hand.Pass else nlm) := by
                rw [ht]
                simp only [List.drop_one, List.tail_cons, List.drop_succ_cons,
                  List.drop_zero, List.mem_cons]
                by_cases h2 : np2 = nlpS
                · subst h2
                  simp
                · have h2s : ¬ nlpS = np2 := fun hh => h2 hh.symm
                  simp [h2, h2s]
              rw [harg]
      · rw [if_neg hemp] at h
        simp only [Option.some.injEq] at h
        subst h
        refine ⟨np, rfl, ?_⟩
        simp only [skipEmpty, hgp, hemp]
        rfl

theorem rotTrace_of_skipEmpty (players : List Player) (nlpS : String) :
    ∀ fuel np nlm res, skipEmpty players nlpS fuel np nlm = some res →
      ∃ tr, rotTrace players fuel np = some tr := by
  intro fuel
  induction fuel with
  | zero =>
    intro np nlm res h
    cases h
  | succ fuel ih =>
    intro np nlm res h
    simp only [skipEmpty] at h
    rcases hgp : getPlayer players np with _ | p
    · rw [hgp] at h
      cases h
    · simp only [hgp] at h
      by_cases hemp : p.hand.isEmpty
      · rw [if_pos hemp] at h
        rcases hrot : getNextPlayerInRotation players np with _ | np2
        · rw [hrot] at h
          cases h
        · simp only [hrot] at h
          obtain ⟨tr, htr⟩ := ih np2 _ res h
          refine ⟨np :: tr, ?_⟩
          simp only [rotTrace, hgp, hemp, if_true, hrot, htr, Option.map_some']
      · rw [if_neg hemp] at h
        refine ⟨[np], ?_⟩
        simp only [rotTrace, hgp, hemp]
        rfl

theorem rotTrace_spec (players : List Player) :
    ∀ fuel np tr, rotTrace players fuel np = some tr →
      tr ≠ [] ∧ tr.head? = some np ∧
      List.Chain' (fun a b => getNextPlayerInRotation players a = some b) tr ∧
      (∀ q ∈ tr.dropLast, ∃ pq, getPlayer players q = some pq ∧ pq.hand = []) ∧
      (∀ last, tr.getLast? = some last →
        ∃ pl, getPlayer players last = some pl ∧ pl.hand ≠ []) := by
  intro fuel
  induction fuel with
  | zero =>
    intro np tr h
    cases h
  | succ fuel ih =>
    intro np tr h
    simp only [rotTrace] at h
    rcases hgp : getPlayer players np with _ | p
    · rw [hgp] at h
      cases h
    · simp only [hgp] at h
      by_cases hemp : p.hand.isEmpty
      · rw [if_pos hemp] at h
        rcases hrot : getNextPlayerInRotation players np with _ | np2
        · rw [hrot] at h
          cases h
        · simp only [hrot] at h
          rcases hl : rotTrace players fuel np2 with _ | l
          · rw [hl] at h
            cases h
          · rw [hl] at h
            simp only [Option.map_some', Option.some.injEq] at h
            subst h
            obtain ⟨hne, hhead, hchain, hdrop, hlast⟩ := ih np2 l hl
            obtain ⟨t, ht⟩ := rotTrace_head players fuel np2 l hl
            refine ⟨by simp, by simp, ?_, ?_, ?_⟩
            · rw [ht]
              rw [ht] at hchain
              exact List.chain'_cons.mpr ⟨hrot, hchain⟩
            · intro q hq
              rw [List.dropLast_cons_of_ne_nil hne] at hq
              rcases List.mem_cons.mp hq with hq | hq
              · subst hq
                exact ⟨p, hgp, List.isEmpty_iff.mp hemp⟩
              · exact hdrop q hq
            · intro last hl2
              have hcl : (np :: l).getLast? = l.getLast? := by
                rw [ht]
                rfl
              rw [hcl] at hl2
              exact hlast last hl2
      · rw [if_neg hemp] at h
        simp only [Option.some.injEq] at h
        subst h
        refine ⟨by simp, rfl, by simp, by simp, ?_⟩
        intro last hl2
        simp only [List.getLast?_singleton, Option.some.injEq] at hl2
        subst hl2
        refine ⟨p, hgp, ?_⟩
        intro hc
        rw [hc] at hemp
        simp at hemp

set_option maxRecDepth 4000 in
theorem getLastMoveAndNewPlayer_spec (r : Round) (u : String)
    (hand : Option Hand) (nlp : Option String) (nlm : Option Hand) (pl : String)
    (h : getLastMoveAndNewPlayer r u hand nlp = some (nlm, pl)) :
    ∃ np0 tr, getNextPlayerInRotation r.players u = some np0 ∧
      rotTrace r.players (r.players.length + 1) np0 = some tr ∧
      tr.getLast? = some pl ∧
      nlm = (if nlp.getD "invalid_player" ∈ tr then some Hand.Pass
             else if hand = some Hand.Pass then r.last_move else hand) := by
  unfold getLastMoveAndNewPlayer at h
  rcases hrot : getNextPlayerInRotation r.players u with _ | np0
  · rw [hrot] at h
    cases h
  · rw [hrot] at h
    have h2 : skipEmpty r.players (nlp.getD "invalid_player")
        (r.players.length + 1) np0
        (if np0 = nlp.getD "invalid_player" then some Hand.Pass
          else if hand = some Hand.Pass then r.last_move else hand)
        = some (nlm, pl) := h
    obtain ⟨tr, htr⟩ := rotTrace_of_skipEmpty r.players (nlp.getD "invalid_player")
      (r.players.length + 1) np0 _ _ h2
    obtain ⟨last, hlast, hskip⟩ := skipEmpty_of_rotTrace r.players
      (nlp.getD "invalid_player") (r.players.length + 1) np0 tr
      (if np0 = nlp.getD "invalid_player" then some Hand.Pass
        else if hand = some Hand.Pass then r.last_move else hand) htr
    rw [hskip] at h2
    simp only [Option.some.injEq, Prod.mk.injEq] at h2
    obtain ⟨hnlm, hpl⟩ := h2
    refine ⟨np0, tr, rfl, htr, ?_, ?_⟩
    · rw [hlast, hpl]
    · obtain ⟨t, ht⟩ := rotTrace_head r.players (r.players.length + 1) np0 tr htr
      rw [← hnlm]
      rw [ht]
      simp only [List.drop_one, List.tail_cons, List.mem_cons]
      by_cases h0 : np0 = nlp.getD "invalid_player"
      · simp [h0]
      · have h0s : ¬ nlp.getD "invalid_player" = np0 := fun hh => h0 hh.symm
        simp [h0, h0s]

/-! ### C6: pass carry-over and table clearing -/

/-- C6: for an accepted submit_move, with the rotation trace tr of players
the turn computation visits (the immediate next player and every skipped
seat): if the submitted hand is a Pass and no visited player equals the
round's last_player, last_move carries over unchanged; and whenever a
visited player equals the current (post-update) last_player — which is the
previous last_player when a Pass was submitted and the acting player
otherwise — the new last_move becomes Pass regardless of what was
submitted. -/
theorem submit_move_pass_carry_and_table_clear (cmp : CompareHands)
    (r : Round) (u : String) (cs : List PlayedCard) (r2 : Round) (hand : Hand)
    (np0 : String) (tr : List String)
    (hacc : submitMove cmp r u cs = some (.ok r2))
    (hb : Hand.build cs = some hand)
    (hrot : getNextPlayerInRotation r.players u = some np0)
    (htr : rotTrace r.players (r.players.length + 1) np0 = some tr) :
    (hand = Hand.Pass → ∀ lp, r.last_player = some lp →
      (∀ q ∈ tr, q ≠ lp) → r2.last_move = r.last_move) ∧
    (∀ nlpv, (if hand = Hand.Pass then r.last_player else some u) = some nlpv →
      nlpv ∈ tr → r2.last_move = some Hand.Pass) := by
  obtain ⟨hand2, player, player2, nlm, nextP, hnp, hb2, hph, hgp, hpm, hgl,
    hpl, hnxt, hlm, hlp, hso, hro, hrs⟩ := submitMove_ok_elim hacc
  have hh : hand2 = hand := by
    rw [hb] at hb2
    exact (Option.some.inj hb2).symm
  rw [hh] at hgl
  obtain ⟨np0', tr', hrot', htr', hlast', hnlm⟩ :=
    getLastMoveAndNewPlayer_spec r u (some hand)
      (if hand = Hand.Pass then r.last_player else some u) nlm nextP hgl
  have hnp0 : np0' = np0 := Option.some.inj (hrot' ▸ hrot)
  rw [hnp0] at htr'
  have htr2 : tr' = tr := Option.some.inj (htr' ▸ htr)
  rw [htr2] at hnlm
  constructor
  · intro hpass lp hlp2 hnotin
    rw [hlm, hnlm]
    have hmem : (if hand = Hand.Pass then r.last_player else some u).getD
        "invalid_player" = lp := by
      rw [if_pos hpass, hlp2]
      rfl
    rw [hmem]
    have : lp ∉ tr := fun hin => hnotin lp hin rfl
    rw [if_neg this, if_pos (by rw [hpass])]
  · intro nlpv hval hin
    rw [hlm, hnlm]
    have hmem : (if hand = Hand.Pass then r.last_player else some u).getD
        "invalid_player" = nlpv := by
      rw [hval]
      rfl
    rw [hmem, if_pos hin]

/-- The three-player round of the repository's table-clearing test: b to
move, a pair on the table, c was the last player. -/
def roundTableClear : Round :=
  ⟨[⟨"a", [⟨Rank.Four, Suit.Clubs⟩, ⟨Rank.Six, Suit.Clubs⟩]⟩,
    ⟨"b", [⟨Rank.Three, Suit.Clubs⟩, ⟨Rank.Six, Suit.Clubs⟩,
      ⟨Rank.Three, Suit.Spades⟩]⟩,
    ⟨"c", [⟨Rank.Three, Suit.Clubs⟩, ⟨Rank.Six, Suit.Clubs⟩]⟩],
    some "b",
    some (Hand.Pair ⟨Rank.Three, Suit.Clubs, false⟩ ⟨Rank.Three, Suit.Clubs, false⟩),
    some "c", defaultSuitOrder, defaultRankOrder, ⟨true, .Rank⟩⟩

/-- The round produced when b passes on roundTableClear: the immediate next
player c equals the last player, so the table clears. -/
def roundCleared : Round :=
  ⟨[⟨"a", [⟨Rank.Four, Suit.Clubs⟩, ⟨Rank.Six, Suit.Clubs⟩]⟩,
    ⟨"b", [⟨Rank.Three, Suit.Clubs⟩, ⟨Rank.Six, Suit.Clubs⟩,
      ⟨Rank.Three, Suit.Spades⟩]⟩,
    ⟨"c", [⟨Rank.Three, Suit.Clubs⟩, ⟨Rank.Six, Suit.Clubs⟩]⟩],
    some "c", some Hand.Pass, some "c", defaultSuitOrder, defaultRankOrder,
    ⟨true, .Rank⟩⟩

/-- Witness for C6: b passing on roundTableClear clears the table because
the computed next player c equals the carried-over last player. -/
theorem submit_move_pass_carry_and_table_clear_witness :
    roundCleared.last_move = some Hand.Pass :=
  (submit_move_pass_carry_and_table_clear cmpStub roundTableClear "b" []
    roundCleared Hand.Pass "c" ["c"] rfl rfl rfl rfl).2 "c" rfl (by simp)

/-! ### Transfer lemmas between the old and updated player lists -/

theorem removeFirst_length (c : PlayedCard) :
    ∀ hand h2, removeFirst hand c = some h2 → h2.length + 1 = hand.length := by
  intro hand
  induction hand with
  | nil =>
    intro h2 h
    cases h
  | cons a t ih =>
    intro h2 h
    simp only [removeFirst] at h
    by_cases hm : a.rank = c.rank ∧ a.suit = c.suit
    · rw [if_pos hm] at h
      simp only [Option.some.injEq] at h
      subst h
      rfl
    · rw [if_neg hm] at h
      rcases hr : removeFirst t c with _ | t2
      · rw [hr] at h
        cases h
      · rw [hr] at h
        simp only [Option.map_some', Option.some.injEq] at h
        subst h
        have := ih t2 hr
        simp only [List.length_cons]
        omega

theorem playMoveAux_length :
    ∀ (cs : List PlayedCard) (hand h2 : List SimpleCard),
      playMoveAux hand cs = some h2 → h2.length + cs.length = hand.length := by
  intro cs
  induction cs with
  | nil =>
    intro hand h2 h
    simp only [playMoveAux, Option.some.injEq] at h
    subst h
    rfl
  | cons c t ih =>
    intro hand h2 h
    simp only [playMoveAux] at h
    rcases hr : removeFirst hand c with _ | hand2
    · rw [hr] at h
      cases h
    · rw [hr] at h
      have h1 := removeFirst_length c hand hand2 hr
      have h2l := ih hand2 h2 h
      simp only [List.length_cons]
      omega

theorem playMove_id (p p2 : Player) (cs : List PlayedCard)
    (h : p.playMove cs = some p2) : p2.id = p.id := by
  unfold Player.playMove at h
  rcases hr : playMoveAux p.hand cs with _ | h2
  · rw [hr] at h
    cases h
  · rw [hr] at h
    simp only [Option.map_some', Option.some.injEq] at h
    subst h
    rfl

theorem playMove_hand_length (p p2 : Player) (cs : List PlayedCard)
    (h : p.playMove cs = some p2) : p2.hand.length + cs.length = p.hand.length := by
  unfold Player.playMove at h
  rcases hr : playMoveAux p.hand cs with _ | h2
  · rw [hr] at h
    cases h
  · rw [hr] at h
    simp only [Option.map_some', Option.some.injEq] at h
    subst h
    exact playMoveAux_length cs p.hand h2 hr

theorem playMove_of_empty (p p2 : Player) (cs : List PlayedCard)
    (h : p.playMove cs = some p2) (he : p.hand = []) : p2.hand = [] := by
  have := playMove_hand_length p p2 cs h
  rw [he] at this
  simp only [List.length_nil] at this
  exact List.length_eq_zero.mp (by omega)

theorem getPlayer_some_id (players : List Player) (q : String) (p : Player)
    (h : getPlayer players q = some p) : p.id = q := by
  have := List.find?_some h
  simpa using this

theorem getPlayer_mem (players : List Player) (q : String) (p : Player)
    (h : getPlayer players q = some p) : p ∈ players :=
  List.mem_of_find?_eq_some h

theorem find?_map_id_preserving (f : Player → Player)
    (hf : ∀ x, (f x).id = x.id) (q : String) :
    ∀ l : List Player,
      (l.map f).find? (fun p => decide (p.id = q))
        = (l.find? (fun p => decide (p.id = q))).map f := by
  intro l
  induction l with
  | nil => rfl
  | cons e t ih =>
    simp only [List.map_cons, List.find?_cons]
    rw [hf e]
    by_cases he : e.id = q
    · simp [he]
    · simp [he, ih]

theorem getPlayer_getUpdatedPlayers (players : List Player) (pl : Player)
    (q : String) :
    getPlayer (getUpdatedPlayers players pl) q
      = (getPlayer players q).map (fun e => if e.id = pl.id then pl else e) := by
  unfold getPlayer getUpdatedPlayers
  refine find?_map_id_preserving _ ?_ q players
  intro x
  by_cases h : x.id = pl.id
  · simp [h]
  · simp [h]

theorem getPlayer_of_mem_nodup (players : List Player)
    (hnd : (players.map Player.id).Nodup) (e : Player) (hm : e ∈ players) :
    getPlayer players e.id = some e := by
  induction players with
  | nil => cases hm
  | cons a t ih =>
    rcases List.mem_cons.mp hm with rfl | hm2
    · simp [getPlayer, List.find?_cons]
    · have hnd2 : (t.map Player.id).Nodup := (List.nodup_cons.mp hnd).2
      have hna : a.id ∉ t.map Player.id := (List.nodup_cons.mp hnd).1
      have hne : ¬ a.id = e.id := by
        intro hh
        exact hna (hh ▸ List.mem_map.mpr ⟨e, hm2, rfl⟩)
      have hstep : getPlayer (a :: t) e.id = getPlayer t e.id := by
        simp [getPlayer, List.find?_cons, hne]
      rw [hstep]
      exact ih hnd2 hm2

/-! ### The rotation function as the cyclic seat successor -/

theorem rotFold_no_match (uid : String) :
    ∀ (l : List Player) (k acc : Nat), (∀ e ∈ l, e.id ≠ uid) →
      (List.enumFrom k l).foldl
        (fun acc p => if p.2.id = uid then p.1 + 1 else acc) acc = acc := by
  intro l
  induction l with
  | nil =>
    intro k acc _
    rfl
  | cons e t ih =>
    intro k acc hno
    have he : ¬ e.id = uid := hno e (by simp)
    simp only [List.enumFrom, List.foldl_cons, he, if_false]
    exact ih (k + 1) acc fun x hx => hno x (by simp [hx])

theorem rotFold_unique_match (uid : String) :
    ∀ (l : List Player) (k acc i : Nat) (hi : i < l.length),
      (l.get ⟨i, hi⟩).id = uid →
      (∀ j (hj : j < l.length), (l.get ⟨j, hj⟩).id = uid → j = i) →
      (List.enumFrom k l).foldl
        (fun acc p => if p.2.id = uid then p.1 + 1 else acc) acc = k + i + 1 := by
  intro l
  induction l with
  | nil =>
    intro k acc i hi
    exact absurd hi (by simp)
  | cons e t ih =>
    intro k acc i hi hmatch huniq
    rcases i with _ | i2
    · have he : e.id = uid := hmatch
      simp only [List.enumFrom, List.foldl_cons, he, if_true]
      have hno : ∀ x ∈ t, x.id ≠ uid := by
        intro x hx hxid
        obtain ⟨j, hj, hget⟩ := List.mem_iff_getElem.mp hx
        have : j + 1 = 0 := huniq (j + 1) (by simp; omega) (by
          simp only [List.get_eq_getElem, List.getElem_cons_succ]
          rw [hget]
          exact hxid)
        omega
      rw [rotFold_no_match uid t (k + 1) (k + 1) hno]
    · have he : ¬ e.id = uid := by
        intro hh
        have : (0 : Nat) = i2 + 1 := huniq 0 (by simp) hh
        omega
      simp only [List.enumFrom, List.foldl_cons, he, if_false]
      have hi2 : i2 < t.length := by
        simp only [List.length_cons] at hi
        omega
      have hmatch2 : (t.get ⟨i2, hi2⟩).id = uid := by
        simpa using hmatch
      have huniq2 : ∀ j (hj : j < t.length), (t.get ⟨j, hj⟩).id = uid → j = i2 := by
        intro j hj hjid
        have := huniq (j + 1) (by simp; omega) (by
          simp only [List.get_eq_getElem, List.getElem_cons_succ]
          simpa using hjid)
        omega
      rw [ih (k + 1) acc i2 hi2 hmatch2 huniq2]
      omega

theorem rotation_seat_succ (players : List Player)
    (hnd : (players.map Player.id).Nodup) (i : Nat) (hi : i < players.length) :
    getNextPlayerInRotation players ((players.get ⟨i, hi⟩).id)
      = (players[(i + 1) % players.length]?).map Player.id := by
  have hpos : 0 < players.length := by omega
  have hids : ∀ j k (hj : j < players.length) (hk : k < players.length),
      (players.get ⟨j, hj⟩).id = (players.get ⟨k, hk⟩).id → j = k := by
    intro j k hj hk he
    have hj2 : j < (players.map Player.id).length := by simpa using hj
    have hk2 : k < (players.map Player.id).length := by simpa using hk
    have hmap : (players.map Player.id)[j] = (players.map Player.id)[k] := by
      simp only [List.getElem_map]
      exact he
    exact (List.Nodup.getElem_inj_iff hnd).mp hmap
  have hlast : players.getLast? = some (players.get ⟨players.length - 1, by omega⟩) := by
    rw [List.getLast?_eq_getElem?]
    rw [List.getElem?_eq_getElem (show players.length - 1 < players.length by omega)]
    rfl
  have hstep : getNextPlayerInRotation players ((players.get ⟨i, hi⟩).id)
      = (if (players.get ⟨players.length - 1, by omega⟩).id
            = (players.get ⟨i, hi⟩).id
          then players.head?.map Player.id
          else (players.get?
            (rotIndex players ((players.get ⟨i, hi⟩).id))).map Player.id) := by
    unfold getNextPlayerInRotation
    rw [hlast]
  rw [hstep]
  by_cases hl : i = players.length - 1
  · subst hl
    rw [if_pos rfl]
    have hmod : (players.length - 1 + 1) % players.length = 0 := by
      have h1 : players.length - 1 + 1 = players.length := by omega
      rw [h1, Nat.mod_self]
    rw [hmod]
    have hhead : players.head? = players[0]? := List.head?_eq_getElem? players
    rw [hhead]
  · have hne : ¬ (players.get ⟨players.length - 1, by omega⟩).id
        = (players.get ⟨i, hi⟩).id := by
      intro hh
      exact hl (hids _ _ _ _ hh).symm
    rw [if_neg hne]
    have hlt : i + 1 < players.length := by omega
    have hidx : rotIndex players ((players.get ⟨i, hi⟩).id) = i + 1 := by
      unfold rotIndex
      have : players.enum = List.enumFrom 0 players := rfl
      rw [this]
      have := rotFold_unique_match ((players.get ⟨i, hi⟩).id) players 0 0 i hi rfl
        (fun j hj hjid => hids j i hj hi hjid)
      omega
    rw [hidx, Nat.mod_eq_of_lt hlt]
    rw [List.get?_eq_getElem?]

theorem mod_add_cancel_self (a b n : Nat) (ha : a < n) (hb : b < n)
    (h : (a + b) % n = a) : b = 0 := by
  rcases Nat.lt_or_ge (a + b) n with hlt | hge
  · rw [Nat.mod_eq_of_lt hlt] at h
    omega
  · have h2 : (a + b) % n = a + b - n := by
      rw [Nat.mod_eq_sub_mod hge, Nat.mod_eq_of_lt (by omega)]
    omega

theorem trace_closed_form (players : List Player)
    (hnd : (players.map Player.id).Nodup)
    (tr : List String) (np0 : String)
    (hhead : tr.head? = some np0)
    (hchain : List.Chain' (fun a b => getNextPlayerInRotation players a = some b) tr)
    (iu : Nat) (hiu : iu < players.length)
    (hrot : getNextPlayerInRotation players ((players.get ⟨iu, hiu⟩).id) = some np0) :
    ∀ j, (hj : j < tr.length) →
      tr.get ⟨j, hj⟩ = (players.get ⟨(iu + 1 + j) % players.length,
        Nat.mod_lt _ (by omega)⟩).id := by
  have hpos : 0 < players.length := by omega
  intro j
  induction j with
  | zero =>
    intro hj
    have h0 : tr.get ⟨0, hj⟩ = np0 := by
      rcases tr with _ | ⟨a, t⟩
      · cases hhead
      · exact Option.some.inj hhead
    rw [h0]
    have hseat := rotation_seat_succ players hnd iu hiu
    rw [hrot] at hseat
    have hlt : (iu + 1) % players.length < players.length := Nat.mod_lt _ hpos
    rw [List.getElem?_eq_getElem hlt] at hseat
    simp only [Option.map_some', Option.some.injEq] at hseat
    exact hseat
  | succ j ihj =>
    intro hj
    have hj1 : j < tr.length := by omega
    have hprev := ihj hj1
    have hcs := List.chain'_iff_get.mp hchain j (by omega)
    rw [hprev] at hcs
    have hm : (iu + 1 + j) % players.length < players.length := Nat.mod_lt _ hpos
    have hseat := rotation_seat_succ players hnd ((iu + 1 + j) % players.length) hm
    rw [hseat] at hcs
    have hidx : ((iu + 1 + j) % players.length + 1) % players.length
        = (iu + 1 + (j + 1)) % players.length := by
      rw [Nat.mod_add_mod]
      congr 1
    have hlt2 : (iu + 1 + (j + 1)) % players.length < players.length :=
      Nat.mod_lt _ hpos
    rw [hidx, List.getElem?_eq_getElem hlt2] at hcs
    simp only [Option.map_some', Option.some.injEq] at hcs
    exact hcs.symm

/-! ### C9: turn rotation skips empty-handed players -/

/-- C9: for every accepted submit_move on a round with distinct player ids
that yields next_player = Some p: the rotation function is the cyclic seat
successor, and there is a walk tr from the acting player's immediate
successor, following the seat order, whose intermediate players all hold
empty hands after the move, ending at p, whose hand after the move is
non-empty — so an empty-handed player is never selected. -/
theorem submit_move_rotation_skips_empty (cmp : CompareHands) (r : Round)
    (u : String) (cs : List PlayedCard) (r2 : Round) (p : String)
    (hacc : submitMove cmp r u cs = some (.ok r2))
    (hnd : (r.players.map Player.id).Nodup)
    (hnp : r2.next_player = some p) :
    (∀ i, (hi : i < r.players.length) →
      getNextPlayerInRotation r.players ((r.players.get ⟨i, hi⟩).id)
        = (r.players[(i + 1) % r.players.length]?).map Player.id) ∧
    ∃ tr, tr ≠ [] ∧
      getNextPlayerInRotation r.players u = tr.head? ∧
      List.Chain' (fun a b => getNextPlayerInRotation r.players a = some b) tr ∧
      tr.getLast? = some p ∧
      (∀ q ∈ tr.dropLast, ∃ pq, getPlayer r2.players q = some pq ∧ pq.hand = []) ∧
      (∃ pp, getPlayer r2.players p = some pp ∧ pp.hand ≠ []) := by
  refine ⟨fun i hi => rotation_seat_succ r.players hnd i hi, ?_⟩
  obtain ⟨hand, player, player2, nlm, nextP, hnpr, hb, hph, hgp, hpm, hgl,
    hpl, hnxt, hlm2, hlp2, hso, hro, hrs⟩ := submitMove_ok_elim hacc
  rw [hnxt] at hnp
  by_cases hcond : 1 < (getPlayersStillIn (getUpdatedPlayers r.players player2)).length
  swap
  · rw [if_neg hcond] at hnp
    cases hnp
  rw [if_pos hcond] at hnp
  have hnextP : nextP = p := Option.some.inj hnp
  rw [hnextP] at hgl
  obtain ⟨np0, tr, hrot, htr, hlastTr, hnlm⟩ :=
    getLastMoveAndNewPlayer_spec r u (some hand)
      (if hand = Hand.Pass then r.last_player else some u) nlm p hgl
  obtain ⟨hne, hhead, hchain, hdrop, hlastF⟩ :=
    rotTrace_spec r.players (r.players.length + 1) np0 tr htr
  have hpid : player.id = u := getPlayer_some_id _ _ _ hgp
  have hp2id : player2.id = u := (playMove_id player player2 cs hpm).trans hpid
  obtain ⟨pl2, hpl2, hplne⟩ := hlastF p hlastTr
  have hplid : pl2.id = p := getPlayer_some_id _ _ _ hpl2
  refine ⟨tr, hne, by rw [hrot, hhead], hchain, hlastTr, ?_, ?_⟩
  · intro q hq
    obtain ⟨pq, hpq, hpqe⟩ := hdrop q hq
    rw [hpl, getPlayer_getUpdatedPlayers r.players player2 q, hpq]
    simp only [Option.map_some']
    by_cases hidq : pq.id = player2.id
    · rw [if_pos hidq]
      refine ⟨player2, rfl, ?_⟩
      have hqu : q = u := by
        rw [← getPlayer_some_id _ _ _ hpq, hidq, hp2id]
      rw [hqu] at hpq
      rw [hgp] at hpq
      have hpq2 : pq = player := (Option.some.inj hpq).symm
      exact playMove_of_empty player player2 cs hpm (by rw [← hpq2]; exact hpqe)
    · rw [if_neg hidq]
      exact ⟨pq, rfl, hpqe⟩
  · rw [hpl, getPlayer_getUpdatedPlayers r.players player2 p, hpl2]
    simp only [Option.map_some']
    by_cases hidp : pl2.id = player2.id
    · rw [if_pos hidp]
      refine ⟨player2, rfl, ?_⟩
      intro hp2e
      -- p = u: the walk returned to the acting player, so every other
      -- player was visited as empty; then at most one player remains in,
      -- contradicting the Some next_player.
      have hpu : p = u := by rw [← hplid, hidp, hp2id]
      obtain ⟨iu, hiu, hgetu⟩ := List.mem_iff_getElem.mp (getPlayer_mem _ _ _ hgp)
      have hidu : (r.players.get ⟨iu, hiu⟩).id = u := by
        simp only [List.get_eq_getElem]
        rw [hgetu, hpid]
      set n := r.players.length with hn
      have hpos : 0 < n := by omega
      have hcf := trace_closed_form r.players hnd tr np0 hhead hchain iu hiu
        (by rw [hidu]; exact hrot)
      have hids : ∀ j k (hj : j < n) (hk : k < n),
          (r.players.get ⟨j, hj⟩).id = (r.players.get ⟨k, hk⟩).id → j = k := by
        intro j k hj hk he
        have hj2 : j < (r.players.map Player.id).length := by simpa using hj
        have hk2 : k < (r.players.map Player.id).length := by simpa using hk
        have hmap : (r.players.map Player.id)[j] = (r.players.map Player.id)[k] := by
          simp only [List.getElem_map]
          exact he
        exact (List.Nodup.getElem_inj_iff hnd).mp hmap
      -- the trace length is a positive multiple of n
      have hlen1 : 1 ≤ tr.length := List.length_pos.mpr hne
      have hlastGet : tr.get ⟨tr.length - 1, by omega⟩ = p := by
        have := List.getLast?_eq_getElem? tr
        rw [hlastTr, List.getElem?_eq_getElem (show tr.length - 1 < tr.length by omega)]
          at this
        exact (Option.some.inj this).symm
      have hcfLast := hcf (tr.length - 1) (by omega)
      have hidx1 : iu + 1 + (tr.length - 1) = iu + tr.length := by omega
      rw [hidx1] at hcfLast
      have hmodlt : (iu + tr.length) % n < n := Nat.mod_lt _ hpos
      have hueq : (r.players.get ⟨(iu + tr.length) % n, hmodlt⟩).id
          = (r.players.get ⟨iu, hiu⟩).id := by
        rw [← hcfLast, hlastGet, hpu, hidu]
      have hmodeq : (iu + tr.length) % n = iu := hids _ _ _ _ hueq
      have hlenmod : tr.length % n = 0 := by
        have h1 : (iu + tr.length) % n = (iu + tr.length % n) % n :=
          (Nat.add_mod_mod iu tr.length n).symm
        rw [h1] at hmodeq
        exact mod_add_cancel_self iu (tr.length % n) n (by omega)
          (Nat.mod_lt _ hpos) hmodeq
      have hlenn : n ≤ tr.length :=
        Nat.le_of_dvd (by omega) (Nat.dvd_of_mod_eq_zero hlenmod)
      -- every player other than the actor is empty-handed (old hands)
      have hcover : ∀ e ∈ r.players, e.id ≠ u → e.hand = [] := by
        intro e hme hneu
        obtain ⟨j, hj, hgetj⟩ := List.mem_iff_getElem.mp hme
        have hjne : j ≠ iu := by
          intro hh
          subst hh
          rw [hgetj] at hgetu
          apply hneu
          rw [hgetu, hpid]
        have hn2 : 2 ≤ n := by
          rcases Nat.lt_or_ge j iu with h | h
          · omega
          · omega
        set t := (j + n - iu - 1) % n with htdef
        have htlt : t < n := Nat.mod_lt _ hpos
        have hindex : (iu + 1 + t) % n = j := by
          rw [htdef, Nat.add_mod_mod]
          have h1 : iu + 1 + (j + n - iu - 1) = j + n := by omega
          rw [h1, Nat.add_mod_right, Nat.mod_eq_of_lt hj]
        have htn1 : t ≠ n - 1 := by
          intro hh
          rw [hh] at hindex
          have h1 : iu + 1 + (n - 1) = iu + n := by omega
          rw [h1, Nat.add_mod_right, Nat.mod_eq_of_lt (by omega)] at hindex
          exact hjne hindex.symm
        have htlen : t < tr.length - 1 := by omega
        have hcft := hcf t (by omega)
        have htrt : tr.get ⟨t, by omega⟩ = e.id := by
          rw [hcft]
          have : (r.players.get ⟨(iu + 1 + t) % n, Nat.mod_lt _ (by omega)⟩)
              = r.players.get ⟨j, hj⟩ := by
            congr 1
            exact Fin.ext hindex
          rw [this]
          simp only [List.get_eq_getElem]
          rw [hgetj]
        have hmemdrop : e.id ∈ tr.dropLast := by
          have hlt : t < tr.dropLast.length := by
            simp only [List.length_dropLast]
            omega
          have : tr.dropLast[t] = e.id := by
            rw [List.getElem_dropLast]
            rw [← htrt]
            rfl
          rw [← this]
          exact List.getElem_mem hlt
        obtain ⟨pq, hpq, hpqe⟩ := hdrop e.id hmemdrop
        have := getPlayer_of_mem_nodup r.players hnd e hme
        rw [this] at hpq
        have : pq = e := (Option.some.inj hpq).symm
        rw [← this]
        exact hpqe
      -- then the still-in list of the updated players is empty
      have hempty : getPlayersStillIn (getUpdatedPlayers r.players player2) = [] := by
        rw [getPlayersStillIn, List.filter_eq_nil_iff]
        intro w hw
        obtain ⟨e, hme, hwe⟩ := List.mem_map.mp hw
        by_cases hide : e.id = player2.id
        · rw [if_pos hide] at hwe
          rw [← hwe]
          simp [hp2e]
        · rw [if_neg hide] at hwe
          have : e.hand = [] := hcover e hme (by rw [hp2id] at hide; exact hide)
          rw [← hwe]
          simp [this]
      rw [hempty] at hcond
      simp at hcond
    · rw [if_neg hidp]
      exact ⟨pl2, rfl, hplne⟩

/-- The three-player round of the repository's skip test: b has no cards
left, a is to move with a pair on the table and c the last player. -/
def roundSkip : Round :=
  ⟨[⟨"a", [⟨Rank.Three, Suit.Clubs⟩, ⟨Rank.Three, Suit.Hearts⟩]⟩,
    ⟨"b", []⟩,
    ⟨"c", [⟨Rank.Three, Suit.Clubs⟩]⟩],
    some "a",
    some (Hand.Pair ⟨Rank.Three, Suit.Clubs, false⟩ ⟨Rank.Three, Suit.Clubs, false⟩),
    some "c", defaultSuitOrder, defaultRankOrder, ⟨true, .Rank⟩⟩

/-- The round produced when a passes on roundSkip: b is skipped as
empty-handed and c, holding cards, becomes the next player. -/
def roundSkipAfter : Round :=
  ⟨[⟨"a", [⟨Rank.Three, Suit.Clubs⟩, ⟨Rank.Three, Suit.Hearts⟩]⟩,
    ⟨"b", []⟩,
    ⟨"c", [⟨Rank.Three, Suit.Clubs⟩]⟩],
    some "c", some Hand.Pass, some "c", defaultSuitOrder, defaultRankOrder,
    ⟨true, .Rank⟩⟩

/-- Witness for C9: in the skip scenario the walk from a's successor visits
the empty-handed b and ends at c, who still holds cards after the move. -/
theorem submit_move_rotation_skips_empty_witness :
    ∃ tr : List String, tr ≠ [] ∧
      getNextPlayerInRotation roundSkip.players "a" = tr.head? ∧
      List.Chain' (fun x y => getNextPlayerInRotation roundSkip.players x = some y) tr ∧
      tr.getLast? = some "c" ∧
      (∀ q ∈ tr.dropLast,
        ∃ pq, getPlayer roundSkipAfter.players q = some pq ∧ pq.hand = []) ∧
      (∃ pp, getPlayer roundSkipAfter.players "c" = some pp ∧ pp.hand ≠ []) :=
  (submit_move_rotation_skips_empty cmpStub roundSkip "a" [] roundSkipAfter "c"
    rfl (by decide) rfl).2
